import Mathlib

/-
Verification development for the task-and-team management backend
(Express controllers and middlewares over Mongoose models).

Embedding conventions.
* Identifiers (`ObjectId`) are 12-byte values, held as numbers; two identifiers
  are compared through `toString()` / `equals`, that is for equality.  The
  identifier of the task or team a route is about (`req.params.id`) is taken
  after its cast.  The identifiers that the team controller compares as raw
  strings (`req.body.userId`, `req.params.memberId`) are strings: the source
  casts them in `findById`, `push` and `pull` and compares them uncast in
  `includes` and `===`.
* The document store is an explicit value `Db` threaded through every handler.
* A handler either sends a JSON reply or throws after `res.status(code)`; the
  thrown error reaches `errorHandler`, which fixes the final status.
-/

namespace GestionKeita

/-! ## Data model (models/User.js, models/Task.js, models/Team.js) -/

abbrev ObjectId := Nat

/-- User document: `role` is one of 'membre' | 'admin' (default 'membre'). -/
structure User where
  _id : ObjectId
  username : String
  email : String
  role : String
deriving DecidableEq, Repr

/-- Task document of `TaskSchema`. -/
structure Task where
  _id : ObjectId
  title : String
  description : String
  status : String
  priority : String
  assignedTo : ObjectId
  assignedBy : ObjectId
  team : Option ObjectId
deriving DecidableEq, Repr

/-- Team document of `TeamSchema`; `members` is an array of user references. -/
structure Team where
  _id : ObjectId
  name : String
  description : Option String
  members : List ObjectId
  leader : ObjectId
deriving DecidableEq, Repr

/-- The three collections of the store. -/
structure Db where
  users : List User
  tasks : List Task
  teams : List Team
deriving DecidableEq, Repr

/-- `User.findById(id)`: the stored user with that identifier, if any. -/
def User.findById (db : Db) (id : ObjectId) : Option User :=
  db.users.find? (fun u => u._id == id)

/-- `Task.findById(id)`. -/
def Task.findById (db : Db) (id : ObjectId) : Option Task :=
  db.tasks.find? (fun t => t._id == id)

/-- `Team.findById(id)`. -/
def Team.findById (db : Db) (id : ObjectId) : Option Team :=
  db.teams.find? (fun t => t._id == id)

/-- A freshly generated `ObjectId`: different from every identifier in the store. -/
def Db.freshId (db : Db) : ObjectId :=
  (db.users.map (fun u => u._id) ++ db.tasks.map (fun t => t._id)
    ++ db.teams.map (fun t => t._id)).foldr max 0 + 1

/-! ## Identifiers as strings -/

/-- The lower-case hexadecimal digit of a number below 16. -/
def hexDigit (d : Nat) : Char :=
  if d < 10 then Char.ofNat (48 + d) else Char.ofNat (87 + d)

/-- The `w` lowest hexadecimal digits of `n`, most significant first. -/
def hexOfWidth : Nat → Nat → List Char
  | 0, _ => []
  | w + 1, n => hexOfWidth w (n / 16) ++ [hexDigit (n % 16)]

/-- `id.toString()`: the 24 lower-case hexadecimal digits of the 12 bytes.  A
number from 16^24 on stands for no identifier; it is given 25 digits, so that
it is the cast of no string. -/
def ObjectId.toString (o : ObjectId) : String :=
  String.mk (if o < 16 ^ 24 then hexOfWidth 24 o else hexOfWidth 25 o)

/-- The value of a hexadecimal digit, in either case. -/
def hexValue (c : Char) : Option Nat :=
  let n := c.toNat
  if 48 ≤ n ∧ n ≤ 57 then some (n - 48)
  else if 97 ≤ n ∧ n ≤ 102 then some (n - 87)
  else if 65 ≤ n ∧ n ≤ 70 then some (n - 55)
  else none

/-- The number written by a string of hexadecimal digits, after the digits `acc`. -/
def parseHexAux (acc : Nat) : List Char → Option Nat
  | [] => some acc
  | c :: cs =>
    match hexValue c with
    | none => none
    | some v => parseHexAux (16 * acc + v) cs

/-- The cast of a request string to an `ObjectId`: a string of 24 hexadecimal
digits, in lower or upper case, is the identifier with these digits; for any
other string the cast fails (`none`, a `CastError` in the source).  The
theorems below use the cast of strings of 24 hexadecimal digits and of the
2-character string "42" only. -/
def castObjectId (s : String) : Option ObjectId :=
  if s.length = 24 then parseHexAux 0 s.data else none

/-! ## Replies and the error middleware (middlewares/errorMiddleware.js) -/

/-- The JSON sent by `getTasks`: `{ count, page, totalPages, totalTasks, tasks }`,
each task with its populated `assignedTo` and `assignedBy`. -/
structure TaskPage where
  count : Nat
  page : Int
  totalPages : Int
  totalTasks : Nat
  tasks : List (Task × Option User × Option User)
deriving DecidableEq, Repr

/-- JSON payloads sent by the handlers.  A populated reference is the referenced
user document, or nothing when no such user is stored. -/
inductive Body where
  | task (t : Task) (assignedTo assignedBy : Option User)
  | taskPage (p : TaskPage)
  | team (t : Team)
  | teamPopulated (t : Team) (leader : Option User) (members : List User)
  | deleted (id : ObjectId) (message : String)
  | validationErrors
  | null
deriving DecidableEq, Repr

/-- What a chain of handlers produces: `json status body` for
`res.status(status).json(body)`, `thrown statusCode message` for an `Error`
thrown while `res.statusCode` is `statusCode` (200 when no handler set it). -/
inductive Reply where
  | json (status : Nat) (body : Body)
  | thrown (statusCode : Nat) (message : String)
deriving DecidableEq, Repr

/-- The `statusCode` computed by `errorHandler`:
`res.statusCode === 200 ? 500 : res.statusCode`. -/
def errorStatus (resStatusCode : Nat) : Nat :=
  if resStatusCode = 200 then 500 else resStatusCode

/-- The JSON written by `errorHandler`. -/
structure ErrorJson where
  message : String
  stack : Option String
deriving DecidableEq, Repr

/-- `errorHandler(err, req, res, next)`: final status and JSON body; `nodeEnv` is
`process.env.NODE_ENV` (`none` when unset). -/
def errorHandler (nodeEnv : Option String) (message stack : String) (resStatusCode : Nat) :
    Nat × ErrorJson :=
  let statusCode := errorStatus resStatusCode
  (statusCode,
    { message := message, stack := if nodeEnv = some "production" then none else some stack })

/-- HTTP status of the response finally sent to the client. -/
def Reply.status : Reply → Nat
  | .json status _ => status
  | .thrown statusCode _ => errorStatus statusCode

/-- Result of a guard middleware: `next a` when it calls `next()` after attaching
`a` to the request, `thrown statusCode message` when it throws. -/
inductive Outcome (α : Type) where
  | next (attached : α)
  | thrown (statusCode : Nat) (message : String)
deriving DecidableEq, Repr

/-- HTTP status produced when the guard stops the request (`none` when it lets it through). -/
def Outcome.status {α : Type} : Outcome α → Option Nat
  | .next _ => none
  | .thrown statusCode _ => some (errorStatus statusCode)

/-! ## Permission middlewares (middlewares/permissionMiddleware.js) -/

/-- `canEditTask`: admin, creator (`assignedBy`) or assignee (`assignedTo`). -/
def canEditTask (db : Db) (user : User) (id : ObjectId) : Outcome Task :=
  match Task.findById db id with
  | none => .thrown 404 "Tâche non trouvée"
  | some task =>
    let isAllowed :=
      user.role == "admin" ||
      task.assignedBy == user._id ||
      task.assignedTo == user._id
    if !isAllowed then
      .thrown 403 "Action non autorisée : vous n'avez pas les droits pour modifier cette tâche."
    else
      .next task

/-- `canDeleteTask`: admin or creator (`assignedBy`). -/
def canDeleteTask (db : Db) (user : User) (id : ObjectId) : Outcome Task :=
  match Task.findById db id with
  | none => .thrown 404 "Tâche non trouvée"
  | some task =>
    let isAllowed :=
      user.role == "admin" ||
      task.assignedBy == user._id
    if !isAllowed then
      .thrown 403 "Action non autorisée : vous n'avez pas les droits pour supprimer cette tâche."
    else
      .next task

/-! ## Strings as JavaScript sees them -/

/-- Characters removed by `String.prototype.trim` and matched by the regular
expression class `\s` (white space and line terminators). -/
def isJsWhitespace (c : Char) : Bool :=
  let n := c.toNat
  n == 0x09 || n == 0x0A || n == 0x0B || n == 0x0C || n == 0x0D || n == 0x20 ||
  n == 0xA0 || n == 0x1680 || (0x2000 ≤ n && n ≤ 0x200A) || n == 0x2028 ||
  n == 0x2029 || n == 0x202F || n == 0x205F || n == 0x3000 || n == 0xFEFF

/-- Remove the leading and the trailing elements that satisfy `p`. -/
def trimList {α : Type} (p : α → Bool) (l : List α) : List α :=
  ((l.dropWhile p).reverse.dropWhile p).reverse

/-- The `trim` sanitizer of the validators and the `trim: true` schema setter. -/
def jsTrim (s : String) : String :=
  String.mk (trimList isJsWhitespace s.data)

/-- The `length` property of a JavaScript string (UTF-16 code units), used by `maxlength`. -/
def jsLength (s : String) : Nat :=
  (s.data.map (fun c => if 0x10000 ≤ c.toNat then 2 else 1)).sum

/-! ## Task validation (validators/taskValidator.js) and schema (models/Task.js) -/

def VALID_STATUSES : List String := ["à_faire", "en_cours", "terminée"]

def VALID_PRIORITIES : List String := ["faible", "moyenne", "élevée"]

/-- The keys of `req.body` that a task route or the task schema can read; any
other key is dropped by the destructuring in `createTask` or by the schema. -/
structure TaskBody where
  title : Option String := none
  description : Option String := none
  status : Option String := none
  priority : Option String := none
  assignedTo : Option ObjectId := none
  assignedBy : Option ObjectId := none
  team : Option ObjectId := none
deriving DecidableEq, Repr

/-- A field guarded by `.optional().isIn(values)` passes when absent or listed. -/
def optionalIsIn (values : List String) : Option String → Bool
  | none => true
  | some v => values.contains v

/-- The custom check of `assignedTo`: `User.findById(value)` must find a user. -/
def userExists (db : Db) (id : ObjectId) : Bool :=
  (User.findById db id).isSome

/-- `createTaskValidationRules()` followed by `validate`: `none` when
`validationResult(req)` has errors (reply 422), otherwise the body as the
sanitizers (`trim`) leave it in `req.body`. -/
def createTaskValidation (db : Db) (body : TaskBody) : Option TaskBody :=
  let title := jsTrim (body.title.getD "")
  let description := body.description.map jsTrim
  let titleOk := title != "" && 3 ≤ title.length
  let assignedToOk :=
    match body.assignedTo with
    | none => false
    | some id => userExists db id
  if titleOk && assignedToOk && optionalIsIn VALID_STATUSES body.status
      && optionalIsIn VALID_PRIORITIES body.priority then
    some { body with title := some title, description := description }
  else
    none

/-- `updateTaskValidationRules()` followed by `validate`; every body field is optional. -/
def updateTaskValidation (db : Db) (body : TaskBody) : Option TaskBody :=
  let title := body.title.map jsTrim
  let description := body.description.map jsTrim
  let titleOk :=
    match title with
    | none => true
    | some t => decide (3 ≤ t.length)
  let assignedToOk :=
    match body.assignedTo with
    | none => true
    | some id => userExists db id
  if titleOk && assignedToOk && optionalIsIn VALID_STATUSES body.status
      && optionalIsIn VALID_PRIORITIES body.priority then
    some { body with title := title, description := description }
  else
    none

/-- Schema validators of a task document (`required`, `maxlength`, `enum`). -/
def Task.valid (t : Task) : Bool :=
  t.title != "" && jsLength t.title ≤ 100 &&
  jsLength t.description ≤ 500 &&
  VALID_STATUSES.contains t.status &&
  VALID_PRIORITIES.contains t.priority

/-- `Task.create(spec)`: setters and defaults of the schema, then validation, then
insertion.  `none` when Mongoose throws a validation error. -/
def Task.create (db : Db) (spec : TaskBody) : Option (Task × Db) :=
  match spec.title, spec.assignedTo, spec.assignedBy with
  | some title, some assignedTo, some assignedBy =>
    let task : Task :=
      { _id := db.freshId
        title := jsTrim title
        description := spec.description.getD ""
        status := spec.status.getD "à_faire"
        priority := spec.priority.getD "faible"
        assignedTo := assignedTo
        assignedBy := assignedBy
        team := spec.team }
    if task.valid then some (task, { db with tasks := db.tasks ++ [task] }) else none
  | _, _, _ => none

/-- Replace the first element satisfying `p` (a write addressed by `_id`). -/
def updateFirst {α : Type} (p : α → Bool) (f : α → α) : List α → List α
  | [] => []
  | x :: xs => if p x then f x :: xs else x :: updateFirst p f xs

/-- The document obtained by `$set`-ting on `t` every schema path present in `body`. -/
def Task.applyUpdate (t : Task) (body : TaskBody) : Task :=
  { t with
    title := (body.title.map jsTrim).getD t.title
    description := body.description.getD t.description
    status := body.status.getD t.status
    priority := body.priority.getD t.priority
    assignedTo := body.assignedTo.getD t.assignedTo
    assignedBy := body.assignedBy.getD t.assignedBy
    team := match body.team with
      | some team => some team
      | none => t.team }

/-- Update validators (`runValidators: true`) run on the paths present in the update. -/
def Task.updateValid (body : TaskBody) : Bool :=
  (match body.title with
    | none => true
    | some title => jsTrim title != "" && jsLength (jsTrim title) ≤ 100) &&
  (match body.description with
    | none => true
    | some d => decide (jsLength d ≤ 500)) &&
  optionalIsIn VALID_STATUSES body.status &&
  optionalIsIn VALID_PRIORITIES body.priority

/-- `Task.findByIdAndUpdate(id, update, { new: true, runValidators: true })`:
`none` when a validator throws, otherwise the updated document (or nothing when
no task has that id) and the new store. -/
def Task.findByIdAndUpdate (db : Db) (id : ObjectId) (update : TaskBody) :
    Option (Option Task × Db) :=
  if !Task.updateValid update then none
  else
    match Task.findById db id with
    | none => some (none, db)
    | some t =>
      let t1 := t.applyUpdate update
      some (some t1,
        { db with tasks := updateFirst (fun x => x._id == id) (fun _ => t1) db.tasks })

/-- `populate` of a task reply: `assignedTo` and `assignedBy` replaced by the users. -/
def populateTask (db : Db) (t : Task) : Body :=
  .task t (User.findById db t.assignedTo) (User.findById db t.assignedBy)

/-! ## Task controller (controllers/taskController.js) -/

/-- `createTask`: only `title, description, assignedTo, status, priority` are read
from the body; `assignedBy` is `req.user._id`. -/
def createTask (db : Db) (user : User) (body : TaskBody) : Reply × Db :=
  match Task.create db
      { title := body.title
        description := body.description
        assignedTo := body.assignedTo
        assignedBy := some user._id
        status := body.status
        priority := body.priority } with
  | none => (.thrown 200 "Task validation failed", db)
  | some (task, db1) => (.json 201 (populateTask db1 task), db1)

/-- `updateTask`: the whole `req.body` is handed to `findByIdAndUpdate`. -/
def updateTask (db : Db) (id : ObjectId) (body : TaskBody) : Reply × Db :=
  match Task.findByIdAndUpdate db id body with
  | none => (.thrown 200 "Validation failed", db)
  | some (none, db1) => (.json 200 .null, db1)
  | some (some updatedTask, db1) => (.json 200 (populateTask db1 updatedTask), db1)

/-- `deleteTask`: `req.task.deleteOne()` on the task attached by `canDeleteTask`. -/
def deleteTask (db : Db) (task : Task) (id : ObjectId) : Reply × Db :=
  (.json 200 (.deleted id "Tâche supprimée avec succès"),
    { db with tasks := db.tasks.eraseP (fun t => t._id == task._id) })

/-! ## Task routes (routes/taskRoutes.js) -/

/-- `POST /api/tasks`: `createTaskValidationRules(), validate, createTask`. -/
def postTask (db : Db) (user : User) (body : TaskBody) : Reply × Db :=
  match createTaskValidation db body with
  | none => (.json 422 .validationErrors, db)
  | some body1 => createTask db user body1

/-- `PUT /api/tasks/:id`: `updateTaskValidationRules(), validate, canEditTask, updateTask`. -/
def putTask (db : Db) (user : User) (id : ObjectId) (body : TaskBody) : Reply × Db :=
  match updateTaskValidation db body with
  | none => (.json 422 .validationErrors, db)
  | some body1 =>
    match canEditTask db user id with
    | .thrown statusCode message => (.thrown statusCode message, db)
    | .next _ => updateTask db id body1

/-- `DELETE /api/tasks/:id`: `validate, canDeleteTask, deleteTask`. -/
def deleteTaskRoute (db : Db) (user : User) (id : ObjectId) : Reply × Db :=
  match canDeleteTask db user id with
  | .thrown statusCode message => (.thrown statusCode message, db)
  | .next task => deleteTask db task id

/-! ## Team schema (models/Team.js) -/

/-- The `pre('save')` hook of `TeamSchema`: when `members` is modified and does
not include the leader, the leader is pushed onto it. -/
def Team.preSave (membersModified : Bool) (t : Team) : Team :=
  if membersModified && !t.members.contains t.leader then
    { t with members := t.members ++ [t.leader] }
  else
    t

/-- Schema validators of a team document (`required`, `maxlength`). -/
def Team.valid (t : Team) : Bool :=
  t.name != "" && jsLength t.name ≤ 50 &&
  (match t.description with
    | none => true
    | some d => decide (jsLength d ≤ 200))

/-- `Team.create(spec)`: setters (`trim`), validation, the `pre('save')` hook, then
insertion under the unique index on `name`.  `none` when Mongoose throws. -/
def Team.create (db : Db) (name : String) (description : Option String)
    (leader : ObjectId) (members : List ObjectId) : Option (Team × Db) :=
  let doc : Team :=
    { _id := db.freshId
      name := jsTrim name
      description := description.map jsTrim
      members := members
      leader := leader }
  if !doc.valid then none
  else
    let team := doc.preSave true
    if db.teams.any (fun t => t.name == team.name) then none
    else some (team, { db with teams := db.teams ++ [team] })

/-- `team.save()` after a change of `members`: the `pre('save')` hook runs, then
the stored document with the same `_id` is overwritten. -/
def Team.save (db : Db) (team : Team) : Team × Db :=
  let team1 := team.preSave true
  (team1, { db with teams := updateFirst (fun t => t._id == team._id) (fun _ => team1) db.teams })

/-- `populate('leader', ...)` and `populate('members', ...)`: references to users
that are not stored are left out of the populated array. -/
def populateTeam (db : Db) (t : Team) : Body :=
  .teamPopulated t (User.findById db t.leader) (t.members.filterMap (User.findById db))

/-! ## Team controller (controllers/teamController.js) -/

/-- The keys of `req.body` of `POST /api/teams`; `createTeam` reads `name` and
`description` only. -/
structure TeamBody where
  name : Option String := none
  description : Option String := none
  leader : Option ObjectId := none
  members : Option (List ObjectId) := none
deriving DecidableEq, Repr

/-- `createTeam`: the creator is the leader and the first member. -/
def createTeam (db : Db) (user : User) (body : TeamBody) : Reply × Db :=
  match body.name with
  | none => (.thrown 400 "Veuillez fournir un nom pour l'équipe", db)
  | some name =>
    if name == "" then (.thrown 400 "Veuillez fournir un nom pour l'équipe", db)
    else
      match Team.create db name body.description user._id [user._id] with
      | none => (.thrown 200 "Team validation failed", db)
      | some (team, db1) => (.json 201 (.team team), db1)

/-- `getTeamById`: visible to the members of the team and to admins. -/
def getTeamById (db : Db) (user : User) (id : ObjectId) : Reply × Db :=
  match Team.findById db id with
  | none => (.thrown 404 "Équipe non trouvée", db)
  | some team =>
    let members := team.members.filterMap (User.findById db)
    let isMember := members.any (fun member => member._id == user._id)
    if !isMember && user.role != "admin" then
      (.thrown 403 "Accès non autorisé. Vous n'êtes pas membre de cette équipe.", db)
    else
      (.json 200 (.teamPopulated team (User.findById db team.leader) members), db)

/-- `team.members.includes(userId)` for a request string: the string is compared,
uncast, with the `toString()` of each member. -/
def membersIncludes (members : List ObjectId) (userId : String) : Bool :=
  members.any (fun m => ObjectId.toString m == userId)

/-- `addMemberToTeam`: leader only; the user must exist and not be a member yet.
`userId` is the string of `req.body` (a body whose `userId` is no string is not
modelled): `User.findById(userId)` casts it (and throws when it cannot, the
status being still 200, with a message that is abridged here),
`includes(userId)` compares it uncast, `push(userId)` casts it. -/
def addMemberToTeam (db : Db) (user : User) (id : ObjectId) (userId : String) : Reply × Db :=
  match Team.findById db id with
  | none => (.thrown 404 "Équipe non trouvée", db)
  | some team =>
    if team.leader != user._id then
      (.thrown 403
        "Action non autorisée. Seul le leader de l'équipe peut ajouter des membres.", db)
    else
      match castObjectId userId with
      | none => (.thrown 200 "Cast to ObjectId failed", db)
      | some uid =>
        match User.findById db uid with
        | none => (.thrown 404 "Utilisateur à ajouter non trouvé.", db)
        | some _ =>
          if membersIncludes team.members userId then
            (.thrown 400 "Cet utilisateur est déjà membre de l'équipe", db)
          else
            let (_, db1) := Team.save db { team with members := team.members ++ [uid] }
            match Team.findById db1 id with
            | none => (.json 200 .null, db1)
            | some updatedTeam => (.json 200 (populateTeam db1 updatedTeam), db1)

/-- `removeMemberFromTeam`: leader only; the leader cannot be removed.
`memberId` is the string of the URL: `team.leader.toString() === memberId`
compares it uncast, `pull(memberId)` casts it (and throws when it cannot, the
status being still 200). -/
def removeMemberFromTeam (db : Db) (user : User) (teamId : ObjectId) (memberId : String) :
    Reply × Db :=
  match Team.findById db teamId with
  | none => (.thrown 404 "Équipe non trouvée", db)
  | some team =>
    if team.leader != user._id then
      (.thrown 403
        "Action non autorisée. Seul le leader de l'équipe peut retirer des membres.", db)
    else if ObjectId.toString team.leader == memberId then
      (.thrown 400 "Le leader ne peut pas être retiré de l'équipe.", db)
    else
      match castObjectId memberId with
      | none => (.thrown 200 "Cast to ObjectId failed", db)
      | some mid =>
        let (_, db1) := Team.save db { team with members := team.members.filter (· != mid) }
        match Team.findById db1 teamId with
        | none => (.json 200 .null, db1)
        | some updatedTeam => (.json 200 (populateTeam db1 updatedTeam), db1)

/-- `deleteTeam`: leader only; `team.deleteOne()`. -/
def deleteTeam (db : Db) (user : User) (id : ObjectId) : Reply × Db :=
  match Team.findById db id with
  | none => (.thrown 404 "Équipe non trouvée", db)
  | some team =>
    if team.leader != user._id then
      (.thrown 403 "Action non autorisée. Seul le leader de l'équipe peut la supprimer.", db)
    else
      (.json 200 (.deleted id "Équipe supprimée avec succès"),
        { db with teams := db.teams.eraseP (fun t => t._id == team._id) })

/-! ## Sequences of team requests -/

/-- A request to one of the team operations that write the `members` of a team. -/
inductive TeamOp where
  | createTeam (user : User) (body : TeamBody)
  | addMemberToTeam (user : User) (id : ObjectId) (userId : String)
  | removeMemberFromTeam (user : User) (teamId : ObjectId) (memberId : String)
deriving DecidableEq, Repr

/-- Run one request against the store. -/
def TeamOp.run (db : Db) : TeamOp → Reply × Db
  | .createTeam user body => GestionKeita.createTeam db user body
  | .addMemberToTeam user id userId => GestionKeita.addMemberToTeam db user id userId
  | .removeMemberFromTeam user teamId memberId =>
    GestionKeita.removeMemberFromTeam db user teamId memberId

/-- The store after a sequence of requests, each run on the store left by the previous one. -/
def runTeamOps (db : Db) (ops : List TeamOp) : Db :=
  ops.foldl (fun d op => (op.run d).2) db

/-- The statuses answered to a sequence of requests, each run on the store left
by the previous one. -/
def teamOpsStatuses (db : Db) : List TeamOp → List Nat
  | [] => []
  | op :: rest => (op.run db).1.status :: teamOpsStatuses (op.run db).2 rest

/-- The property kept by the team writes: every stored team has its leader among its members. -/
def LeaderInMembers (db : Db) : Prop :=
  ∀ t ∈ db.teams, t.leader ∈ t.members

/-- The task document carried by a reply, if it carries one. -/
def Reply.task? : Reply → Option Task
  | .json _ (.task t _ _) => some t
  | _ => none

/-! ## Listing tasks (getTasks in controllers/taskController.js)

Numbers are exact integers: `parseInt` yields an integer or `NaN` (`none`), and
the arithmetic on `page`, `limit` and the task counts stays in the range where
JavaScript numbers are exact. -/

/-- `req.query`: the query string as a mapping from keys to string values. -/
abbrev Query := List (String × String)

def excludedFields : List String := ["page", "sort", "limit", "fields"]

/-- `delete queryObj[el]`. -/
def deleteKey (obj : Query) (el : String) : Query :=
  obj.filter (fun kv => kv.1 != el)

/-- The local `queryObj`: a copy of `req.query` from which every excluded field is deleted. -/
def getTasks.queryObj (query : Query) : Query :=
  excludedFields.foldl deleteKey query

/-- `str.split(',')` on the characters of a string. -/
def splitComma : List Char → List (List Char)
  | [] => [[]]
  | c :: cs =>
    if c = ',' then [] :: splitComma cs
    else
      match splitComma cs with
      | h :: t => (c :: h) :: t
      | [] => [[c]]

/-- `parts.join(' ')`. -/
def joinSpace : List (List Char) → List Char
  | [] => []
  | [x] => x
  | x :: y :: rest => x ++ ' ' :: joinSpace (y :: rest)

/-- The sort handed to the store: `req.query.sort.split(',').join(' ')` when
`req.query.sort` is truthy (a non-empty string), '-createdAt' otherwise. -/
def getTasks.sortBy (query : Query) : String :=
  match query.lookup "sort" with
  | none => "-createdAt"
  | some sort =>
    if sort == "" then "-createdAt"
    else String.mk (joinSpace (splitComma sort.data))

/-- Decimal value of a run of digits. -/
def digitsValue (ds : List Char) : Nat :=
  ds.foldl (fun acc c => 10 * acc + (c.toNat - 48)) 0

/-- `parseInt(value, 10)` on a query value (`none` for `undefined`): leading
white space is skipped, an optional sign is read, then the longest run of
decimal digits; the result is `NaN` (`none`) when there is no digit. -/
def parseInt (value : Option String) : Option Int :=
  match value with
  | none => none
  | some s =>
    let cs := s.data.dropWhile isJsWhitespace
    let signed : Bool × List Char :=
      match cs with
      | '-' :: r => (true, r)
      | '+' :: r => (false, r)
      | r => (false, r)
    let digits := signed.2.takeWhile Char.isDigit
    if digits.isEmpty then none
    else if signed.1 then some (-(digitsValue digits : Int))
    else some (digitsValue digits : Int)

/-- The JavaScript expression `n || d` on a number: `d` when `n` is `NaN` or 0. -/
def orDefault (n : Option Int) (d : Int) : Int :=
  match n with
  | none => d
  | some v => if v = 0 then d else v

/-- The local `page`: `parseInt(req.query.page, 10) || 1`. -/
def getTasks.page (query : Query) : Int :=
  orDefault (parseInt (query.lookup "page")) 1

/-- The local `limit`: `parseInt(req.query.limit, 10) || 10`. -/
def getTasks.limit (query : Query) : Int :=
  orDefault (parseInt (query.lookup "limit")) 10

/-- The local `skip`: `(page - 1) * limit`. -/
def getTasks.skip (query : Query) : Int :=
  (getTasks.page query - 1) * getTasks.limit query

/-- `Math.ceil(a / b)` for integers `a` and `b ≠ 0`, computed with integer division. -/
def mathCeilDiv (a b : Int) : Int :=
  if 0 < b then -((-a) / b) else -(a / (-b))

/-- The query engine of the document store, which is outside the repository:
which tasks an equality filter matches, and the order a sort specification
puts them in (a rearrangement of the matching tasks). -/
structure QueryEngine where
  isMatch : Query → Task → Bool
  order : String → List Task → List Task
  order_perm : ∀ (spec : String) (l : List Task), (order spec l).Perm l

/-- Modelled from the spec: the `skip`/`limit` of the store contract
`findByFilter(filter, sort, skip, limit)`, as dropping `skip` elements and then
taking at most `limit` elements of the matching sequence; a number below zero
drops or takes nothing. -/
def paginate (skip limit : Int) (matching : List Task) : List Task :=
  (matching.drop skip.toNat).take limit.toNat

/-- `Task.find(filter).sort(sort).skip(skip).limit(limit)`. -/
def Task.find (E : QueryEngine) (db : Db) (filter : Query) (sort : String) (skip limit : Int) :
    List Task :=
  paginate skip limit (E.order sort (db.tasks.filter (E.isMatch filter)))

/-- `Task.countDocuments(filter)`. -/
def Task.countDocuments (E : QueryEngine) (db : Db) (filter : Query) : Nat :=
  (db.tasks.filter (E.isMatch filter)).length

/-- `getTasks`: filter, sort, paginate, count, reply. -/
def getTasks (E : QueryEngine) (db : Db) (query : Query) : Reply × Db :=
  let queryObj := getTasks.queryObj query
  let sortBy := getTasks.sortBy query
  let page := getTasks.page query
  let limit := getTasks.limit query
  let skip := getTasks.skip query
  let tasks := Task.find E db queryObj sortBy skip limit
  let totalTasks := Task.countDocuments E db queryObj
  (.json 200 (.taskPage
    { count := tasks.length
      page := page
      totalPages := mathCeilDiv totalTasks limit
      totalTasks := totalTasks
      tasks := tasks.map
        (fun t => (t, User.findById db t.assignedTo, User.findById db t.assignedBy)) }), db)

/-- The page carried by a reply, if it carries one. -/
def Reply.taskPage? : Reply → Option TaskPage
  | .json _ (.taskPage p) => some p
  | _ => none

/-- A query engine for the examples: the filter keys `status`, `priority` and
`title` are compared with the task, any other key matches nothing, and the
tasks stay in insertion order. -/
def sampleEngine : QueryEngine :=
  { isMatch := fun filter t =>
      filter.all (fun kv =>
        if kv.1 == "status" then t.status == kv.2
        else if kv.1 == "priority" then t.priority == kv.2
        else if kv.1 == "title" then t.title == kv.2
        else false)
    order := fun _ l => l
    order_perm := fun _ l => List.Perm.refl l }

/-- The query of the scenario `GET /tasks?status=...&sort=-createdAt&page=1&limit=5`,
with a second sort field. -/
def scenarioQuery : Query :=
  [("status", "à_faire"), ("sort", "priority,-createdAt"), ("page", "1"), ("limit", "5"),
    ("fields", "title")]

/-! ## Input sanitization (middlewares/mongoSanitize.middleware.js) -/

/-- A value of `req.body`, `req.query` or `req.params`: a primitive, an array, or
a plain object given by its own enumerable properties in enumeration order. -/
inductive JsValue where
  | null
  | bool (b : Bool)
  | number (n : Int)
  | string (s : String)
  | array (items : List JsValue)
  | object (fields : List (String × JsValue))
deriving Repr

/-- The test on a key: `key.startsWith('$') || key.includes('.')`. -/
def isOffendingKey (key : String) : Bool :=
  key.data.head? == some '$' || key.data.contains '.'

mutual
/-- `sanitizeValue(value)`, as the value it leaves behind: primitives are left
alone, every element of an array is sanitized, and in an object every own key
that is offending is deleted while the value of every other key is sanitized. -/
def sanitizeValue : JsValue → JsValue
  | .array items => .array (sanitizeItems items)
  | .object fields => .object (sanitizeFields fields)
  | v => v
termination_by structural v => v
/-- The loop `value.forEach(sanitizeValue)`. -/
def sanitizeItems : List JsValue → List JsValue
  | [] => []
  | v :: rest => sanitizeValue v :: sanitizeItems rest
termination_by structural items => items
/-- The loop `for (const key in value)` over the own properties. -/
def sanitizeFields : List (String × JsValue) → List (String × JsValue)
  | [] => []
  | (key, v) :: rest =>
    if isOffendingKey key then sanitizeFields rest
    else (key, sanitizeValue v) :: sanitizeFields rest
termination_by structural fields => fields
end

/-- `HasKey v key`: some object inside `v`, at any depth and also inside arrays,
has `key` among its own keys. -/
inductive HasKey : JsValue → String → Prop where
  | here {fields : List (String × JsValue)} {key : String} {v : JsValue} :
      (key, v) ∈ fields → HasKey (.object fields) key
  | inField {fields : List (String × JsValue)} {key field : String} {v : JsValue} :
      (field, v) ∈ fields → HasKey v key → HasKey (.object fields) key
  | inItem {items : List JsValue} {key : String} {v : JsValue} :
      v ∈ items → HasKey v key → HasKey (.array items) key

/-- A body with operator keys at several depths, also inside an array. -/
def injectionBody : JsValue :=
  .object
    [ ("email", .object [("$gt", .string "")]),
      ("profile.role", .string "admin"),
      ("tags", .array [.object [("$where", .string "1"), ("name", .string "a")], .number 3]) ]

/-- `HasKeptKey v key`: some object inside `v` has the key `key`, that key is not
offending, and neither is any key on the way from `v` down to that object. -/
inductive HasKeptKey : JsValue → String → Prop where
  | here {fields : List (String × JsValue)} {key : String} {v : JsValue} :
      (key, v) ∈ fields → isOffendingKey key = false → HasKeptKey (.object fields) key
  | inField {fields : List (String × JsValue)} {key field : String} {v : JsValue} :
      (field, v) ∈ fields → isOffendingKey field = false → HasKeptKey v key →
      HasKeptKey (.object fields) key
  | inItem {items : List JsValue} {key : String} {v : JsValue} :
      v ∈ items → HasKeptKey v key → HasKeptKey (.array items) key

/-- A body without any offending key. -/
def cleanBody : JsValue :=
  .object
    [ ("title", .string "Rapport"),
      ("tags", .array [.object [("name", .string "a")], .number 3, .null]),
      ("done", .bool false) ]

/-- The property kept by the team writes: no stored team lists a member twice. -/
def MembersNodup (db : Db) : Prop :=
  ∀ t ∈ db.teams, t.members.Nodup

/-! ## Sample data (the fixtures of api.test.js) -/

def leaderL : User :=
  { _id := 1, username := "leaderuser", email := "leader@example.com", role := "membre" }

def memberM : User :=
  { _id := 2, username := "memberuser", email := "member@example.com", role := "membre" }

def adminA : User :=
  { _id := 3, username := "adminuser", email := "admin@example.com", role := "admin" }

def outsiderO : User :=
  { _id := 4, username := "otheruser", email := "other@example.com", role := "membre" }

/-- The task of the test "un utilisateur non autorisé ne devrait PAS pouvoir
supprimer une tâche": created by the leader, assigned to the member. -/
def sampleTask : Task :=
  { _id := 10, title := "A task only leader can delete", description := "",
    status := "à_faire", priority := "faible", assignedTo := 2, assignedBy := 1, team := none }

def sampleTeam : Team :=
  { _id := 20, name := "Test Team", description := some "A team for testing",
    members := [1], leader := 1 }

def sampleDb : Db :=
  { users := [leaderL, memberM, adminA, outsiderO], tasks := [sampleTask], teams := [sampleTeam] }

/-- A store with the four users and no team or task yet. -/
def usersOnlyDb : Db :=
  { users := [leaderL, memberM, adminA, outsiderO], tasks := [], teams := [] }

/-- The membership scenario of the tests: the leader creates a team (which gets
the fresh identifier 5), adds the member, removes the member, then tries to
remove the leader. -/
def scenarioOps : List TeamOp :=
  [ .createTeam leaderL { name := some "Test Team", description := some "A team for testing" },
    .addMemberToTeam leaderL 5 "000000000000000000000002",
    .removeMemberFromTeam leaderL 5 "000000000000000000000002",
    .removeMemberFromTeam leaderL 5 "000000000000000000000001" ]

/-- A leader whose identifier has letters among its hexadecimal digits:
`toString()` gives "507f1f77bcf86cd799439011". -/
def leaderH : User :=
  { _id := 0x507f1f77bcf86cd799439011, username := "chef", email := "chef@example.com",
    role := "membre" }

/-- A member whose `toString()` is "507f191e810c19729de860ea". -/
def memberH : User :=
  { _id := 0x507f191e810c19729de860ea, username := "membre", email := "membre@example.com",
    role := "membre" }

/-- A team led by `leaderH` with `memberH` as second member. -/
def teamH : Team :=
  { _id := 30, name := "Équipe H", description := none,
    members := [0x507f1f77bcf86cd799439011, 0x507f191e810c19729de860ea],
    leader := 0x507f1f77bcf86cd799439011 }

def dbH : Db :=
  { users := [leaderH, memberH], tasks := [], teams := [teamH] }

/-- A store with the two users `leaderH`, `memberH` and no team yet. -/
def usersH : Db :=
  { users := [leaderH, memberH], tasks := [], teams := [] }

/-- Requests by `leaderH` on `usersH`: create a team (which gets the fresh
identifier 0x507f1f77bcf86cd799439012), add `memberH`, then ask to remove the
leader, the leader's id being written in upper case. -/
def upperCaseRemoveOps : List TeamOp :=
  [ .createTeam leaderH { name := some "Équipe H" },
    .addMemberToTeam leaderH 0x507f1f77bcf86cd799439012 "507f191e810c19729de860ea",
    .removeMemberFromTeam leaderH 0x507f1f77bcf86cd799439012 "507F1F77BCF86CD799439011" ]

/-- Requests by `leaderH` on `usersH`: create a team, add `memberH`, then add
`memberH` again, the id being written in upper case the second time. -/
def upperCaseAddOps : List TeamOp :=
  [ .createTeam leaderH { name := some "Équipe H" },
    .addMemberToTeam leaderH 0x507f1f77bcf86cd799439012 "507f191e810c19729de860ea",
    .addMemberToTeam leaderH 0x507f1f77bcf86cd799439012 "507F191E810C19729DE860EA" ]

/-- A PUT body that names the assignee as the new `assignedBy`. -/
def takeoverBody : TaskBody := { assignedBy := some 2 }

/-- A POST body whose title carries surrounding blanks and that brings its own `assignedBy`. -/
def spacedBody : TaskBody :=
  { title := some "  Rapport  ", assignedTo := some 2, assignedBy := some 4 }

/-- A POST /api/teams body that reuses the name of `sampleTeam` and brings its
own `leader` and `members`. -/
def duplicateNameBody : TeamBody :=
  { name := some "Test Team", leader := some 4, members := some [4, 2] }

/-- A POST /api/teams body whose name has 51 characters. -/
def longNameBody : TeamBody :=
  { name := some "Une équipe dont le nom dépasse cinquante caractères" }

/-- A POST /api/teams body with a fresh name that brings its own `leader` and `members`. -/
def otherTeamBody : TeamBody :=
  { name := some "  Another Team ", description := some "A team for testing",
    leader := some 4, members := some [4, 2] }

/-! ## Lemmas: trimming -/

theorem dropWhile_self_of_prefix {α : Type} (p : α → Bool) (l m : List α)
    (h : l <+: m.dropWhile p) : l.dropWhile p = l := by
  cases l with
  | nil => rfl
  | cons a t =>
    obtain ⟨s, hs⟩ := h
    have hhead : (m.dropWhile p).head? = some a := by rw [← hs]; rfl
    have hpa : p a = false := by
      have := List.head?_dropWhile_not p m
      rw [hhead] at this
      simpa using this
    simp [List.dropWhile_cons, hpa]

theorem trimList_idem {α : Type} (p : α → Bool) (l : List α) :
    trimList p (trimList p l) = trimList p l := by
  unfold trimList
  have h1 : (((l.dropWhile p).reverse.dropWhile p).reverse).dropWhile p
      = ((l.dropWhile p).reverse.dropWhile p).reverse := by
    apply dropWhile_self_of_prefix p _ l
    have hs : (l.dropWhile p).reverse.dropWhile p <:+ (l.dropWhile p).reverse :=
      List.dropWhile_suffix p
    have := List.reverse_prefix.mpr hs
    simpa using this
  have h2 : ((l.dropWhile p).reverse.dropWhile p).dropWhile p
      = (l.dropWhile p).reverse.dropWhile p :=
    dropWhile_self_of_prefix p _ _ (List.prefix_refl _)
  rw [h1, List.reverse_reverse, h2]

theorem jsTrim_idem (s : String) : jsTrim (jsTrim s) = jsTrim s := by
  unfold jsTrim
  simp only [trimList_idem]

/-! ## Lemmas: identifiers and their strings -/

theorem hexValue_hexDigit (d : Nat) (h : d < 16) : hexValue (hexDigit d) = some d := by
  interval_cases d <;> decide

theorem parseHexAux_append (acc : Nat) (l : List Char) (c : Char) :
    parseHexAux acc (l ++ [c]) =
      (parseHexAux acc l).bind (fun a => (hexValue c).map (fun v => 16 * a + v)) := by
  induction l generalizing acc with
  | nil => simp only [List.nil_append, parseHexAux]; cases hexValue c <;> simp [parseHexAux]
  | cons x xs ih =>
    simp only [List.cons_append, parseHexAux]
    cases hexValue x with
    | none => simp
    | some v => simp [ih]

theorem length_hexOfWidth (w n : Nat) : (hexOfWidth w n).length = w := by
  induction w generalizing n with
  | zero => simp [hexOfWidth]
  | succ w ih => simp [hexOfWidth, ih]

theorem parseHexAux_hexOfWidth (w n acc : Nat) :
    parseHexAux acc (hexOfWidth w n) = some (acc * 16 ^ w + n % 16 ^ w) := by
  induction w generalizing n with
  | zero => simp [hexOfWidth, parseHexAux, Nat.mod_one]
  | succ w ih =>
    simp only [hexOfWidth, parseHexAux_append, ih, Option.some_bind,
      hexValue_hexDigit (n % 16) (Nat.mod_lt _ (by norm_num)), Option.map_some']
    congr 1
    have h1 : n % 16 ^ (w + 1) = n % 16 + 16 * (n / 16 % 16 ^ w) := by
      rw [pow_succ, mul_comm, Nat.mod_mul]
    rw [h1, pow_succ]
    ring

/-- A string that is the `toString()` of an identifier casts to that identifier only. -/
theorem cast_of_toString (m u : ObjectId) (s : String)
    (hs : ObjectId.toString m = s) (hc : castObjectId s = some u) : u = m := by
  unfold castObjectId at hc
  split at hc
  · rename_i hlen
    rw [← hs] at hc hlen
    unfold ObjectId.toString at hc hlen
    by_cases hm : m < 16 ^ 24
    · simp only [hm, if_true] at hc
      rw [parseHexAux_hexOfWidth] at hc
      simp only [zero_mul, zero_add, Option.some.injEq] at hc
      rw [Nat.mod_eq_of_lt hm] at hc
      exact hc.symm
    · simp only [hm, if_false, String.length, length_hexOfWidth] at hlen
      omega
  · simp at hc

/-- The `toString()` of a 12-byte identifier casts back to it. -/
theorem castObjectId_toString (o : ObjectId) (h : o < 16 ^ 24) :
    castObjectId (ObjectId.toString o) = some o := by
  have hd : (ObjectId.toString o).data = hexOfWidth 24 o := by
    unfold ObjectId.toString
    rw [if_pos h]
  have hlen : (ObjectId.toString o).length = 24 := by
    show (ObjectId.toString o).data.length = 24
    rw [hd, length_hexOfWidth]
  unfold castObjectId
  rw [if_pos hlen, hd, parseHexAux_hexOfWidth, Nat.mod_eq_of_lt h]
  simp

/-- A request string that casts to `u` is `includes`d only in a list that holds `u`. -/
theorem membersIncludes_false_of_cast (members : List ObjectId) (userId : String)
    (u : ObjectId) (hc : castObjectId userId = some u) (hnm : u ∉ members) :
    membersIncludes members userId = false := by
  rw [Bool.eq_false_iff]
  intro hcontra
  obtain ⟨m, hm, heq⟩ := List.any_eq_true.mp hcontra
  have hs : ObjectId.toString m = userId := by simpa using heq
  exact hnm (cast_of_toString m u userId hs hc ▸ hm)

/-- A request string that casts to `u` in another spelling than the `toString()`
of `u` is `includes`d in no list. -/
theorem membersIncludes_false_of_spelling (members : List ObjectId) (userId : String)
    (u : ObjectId) (hc : castObjectId userId = some u) (hsp : userId ≠ ObjectId.toString u) :
    membersIncludes members userId = false := by
  rw [Bool.eq_false_iff]
  intro hcontra
  obtain ⟨m, _, heq⟩ := List.any_eq_true.mp hcontra
  have hs : ObjectId.toString m = userId := by simpa using heq
  have hum := cast_of_toString m u userId hs hc
  exact hsp (hum ▸ hs.symm)

/-! ## Lemmas: the team hook and the store writes -/

theorem mem_updateFirst {α : Type} (p : α → Bool) (f : α → α) (l : List α) (x : α)
    (h : x ∈ updateFirst p f l) : x ∈ l ∨ ∃ y ∈ l, x = f y := by
  induction l with
  | nil => simp [updateFirst] at h
  | cons a t ih =>
    unfold updateFirst at h
    split at h
    · rcases List.mem_cons.mp h with h1 | h1
      · exact Or.inr ⟨a, List.mem_cons_self _ _, h1⟩
      · exact Or.inl (List.mem_cons_of_mem _ h1)
    · rcases List.mem_cons.mp h with h1 | h1
      · exact Or.inl (h1 ▸ List.mem_cons_self _ _)
      · rcases ih h1 with h2 | ⟨y, hy, h2⟩
        · exact Or.inl (List.mem_cons_of_mem _ h2)
        · exact Or.inr ⟨y, List.mem_cons_of_mem _ hy, h2⟩

theorem find?_updateFirst {α : Type} (p : α → Bool) (y : α) (hy : p y = true) (l : List α) :
    (updateFirst p (fun _ => y) l).find? p = (l.find? p).map (fun _ => y) := by
  induction l with
  | nil => simp [updateFirst]
  | cons a t ih =>
    unfold updateFirst
    by_cases hp : p a = true
    · simp [hp, hy, List.find?_cons]
    · simp [hp, List.find?_cons, ih]

theorem preSave_leader_mem (t : Team) :
    (t.preSave true).leader ∈ (t.preSave true).members := by
  unfold Team.preSave
  by_cases h : t.leader ∈ t.members
  · simp [h]
  · simp [h]

theorem save_keeps_leader (db : Db) (team : Team) (h : LeaderInMembers db) :
    LeaderInMembers (Team.save db team).2 := by
  intro t ht
  simp only [Team.save] at ht
  rcases mem_updateFirst _ _ _ _ ht with h1 | ⟨_, _, h1⟩
  · exact h t h1
  · rw [h1]; exact preSave_leader_mem team

theorem create_keeps_leader (db : Db) (name : String) (description : Option String)
    (leader : ObjectId) (members : List ObjectId) (team : Team) (db1 : Db)
    (h : LeaderInMembers db)
    (hc : Team.create db name description leader members = some (team, db1)) :
    LeaderInMembers db1 := by
  unfold Team.create at hc
  simp only at hc
  split at hc
  · exact absurd hc (by simp)
  · split at hc
    · exact absurd hc (by simp)
    · simp only [Option.some.injEq, Prod.mk.injEq] at hc
      obtain ⟨hteam, hdb⟩ := hc
      intro t ht
      rw [← hdb] at ht
      rcases List.mem_append.mp ht with h1 | h1
      · exact h t h1
      · simp only [List.mem_singleton] at h1
        rw [h1]
        exact preSave_leader_mem _

theorem createTeam_keeps_leader (db : Db) (user : User) (body : TeamBody)
    (h : LeaderInMembers db) : LeaderInMembers (createTeam db user body).2 := by
  unfold createTeam
  split
  · exact h
  · split
    · exact h
    · split
      · exact h
      · rename_i hc
        exact create_keeps_leader db _ _ _ _ _ _ h hc

theorem addMemberToTeam_keeps_leader (db : Db) (user : User) (id : ObjectId) (userId : String)
    (h : LeaderInMembers db) : LeaderInMembers (addMemberToTeam db user id userId).2 := by
  unfold addMemberToTeam
  split
  · exact h
  · split
    · exact h
    · split
      · exact h
      · split
        · exact h
        · split
          · exact h
          · simp only
            split <;> exact save_keeps_leader db _ h

theorem removeMemberFromTeam_keeps_leader (db : Db) (user : User) (teamId : ObjectId)
    (memberId : String) (h : LeaderInMembers db) :
    LeaderInMembers (removeMemberFromTeam db user teamId memberId).2 := by
  unfold removeMemberFromTeam
  split
  · exact h
  · split
    · exact h
    · split
      · exact h
      · split
        · exact h
        · simp only
          split <;> exact save_keeps_leader db _ h

theorem teamOp_keeps_leader (db : Db) (op : TeamOp) (h : LeaderInMembers db) :
    LeaderInMembers (op.run db).2 := by
  cases op with
  | createTeam user body => exact createTeam_keeps_leader db user body h
  | addMemberToTeam user id userId => exact addMemberToTeam_keeps_leader db user id userId h
  | removeMemberFromTeam user teamId memberId =>
    exact removeMemberFromTeam_keeps_leader db user teamId memberId h

theorem populated_any_iff (db : Db) (uid : ObjectId) (members : List ObjectId)
    (hu : (User.findById db uid).isSome) :
    (members.filterMap (User.findById db)).any (fun member => member._id == uid) = true
      ↔ uid ∈ members := by
  constructor
  · intro ha
    obtain ⟨u, hmem, hid⟩ := List.any_eq_true.mp ha
    obtain ⟨m, hm, hfind⟩ := List.mem_filterMap.mp hmem
    have h1 := List.find?_some hfind
    have h2 : u._id = m := by simpa using h1
    have h3 : u._id = uid := by simpa using hid
    rw [← h3, h2]
    exact hm
  · intro hm
    obtain ⟨u, hfind⟩ := Option.isSome_iff_exists.mp hu
    have h1 := List.find?_some hfind
    exact List.any_eq_true.mpr ⟨u, List.mem_filterMap.mpr ⟨uid, hm, hfind⟩, h1⟩

/-! ## Lemmas: the guards in closed form -/

theorem canEditTask_of_found (db : Db) (user : User) (id : ObjectId) (task : Task)
    (h : Task.findById db id = some task) :
    canEditTask db user id =
      if user.role = "admin" ∨ user._id = task.assignedBy ∨ user._id = task.assignedTo then
        .next task
      else
        .thrown 403
          "Action non autorisée : vous n'avez pas les droits pour modifier cette tâche." := by
  unfold canEditTask
  simp only [h]
  by_cases hr : user.role = "admin"
  · simp [hr]
  · by_cases hb : task.assignedBy = user._id
    · simp [hr, hb]
    · by_cases ht : task.assignedTo = user._id
      · simp [hr, hb, ht]
      · have hb1 : ¬ user._id = task.assignedBy := fun e => hb e.symm
        have ht1 : ¬ user._id = task.assignedTo := fun e => ht e.symm
        simp [hr, hb, ht, hb1, ht1]

theorem canDeleteTask_of_found (db : Db) (user : User) (id : ObjectId) (task : Task)
    (h : Task.findById db id = some task) :
    canDeleteTask db user id =
      if user.role = "admin" ∨ user._id = task.assignedBy then
        .next task
      else
        .thrown 403
          "Action non autorisée : vous n'avez pas les droits pour supprimer cette tâche." := by
  unfold canDeleteTask
  simp only [h]
  by_cases hr : user.role = "admin"
  · simp [hr]
  · by_cases hb : task.assignedBy = user._id
    · simp [hr, hb]
    · have hb1 : ¬ user._id = task.assignedBy := fun e => hb e.symm
      simp [hr, hb, hb1]

/-- Whatever the task, an actor who passes `canEditTask` as its assignee and
sends `assignedBy` set to the own id in the PUT body becomes the stored
`assignedBy` and is then let through by the DELETE route. -/
theorem put_assignedBy_opens_delete (db : Db) (user : User) (id : ObjectId) (task : Task)
    (h : Task.findById db id = some task) (ha : user._id = task.assignedTo) :
    (putTask db user id { assignedBy := some user._id }).1.status = 200 ∧
    (Task.findById (putTask db user id { assignedBy := some user._id }).2 id).map
      (fun t => t.assignedBy) = some user._id ∧
    (deleteTaskRoute (putTask db user id { assignedBy := some user._id }).2 user id).1.status
      = 200 := by
  have hid : (task._id == id) = true := by
    have := List.find?_some h
    simpa using this
  have hedit := canEditTask_of_found db user id task h
  simp only [ha, or_true, if_true] at hedit
  have key : ∃ db1 : Db,
      putTask db user id { assignedBy := some user._id } =
        (.json 200 (populateTask db1 { task with assignedBy := user._id }), db1) ∧
      Task.findById db1 id = some { task with assignedBy := user._id } := by
    refine ⟨⟨db.users, updateFirst (fun x => x._id == id)
      (fun _ => { task with assignedBy := user._id }) db.tasks, db.teams⟩, ?_, ?_⟩
    · simp [putTask, updateTaskValidation, optionalIsIn, hedit, updateTask,
        Task.findByIdAndUpdate, Task.updateValid, h, Task.applyUpdate]
    · unfold Task.findById at h ⊢
      simp only
      rw [find?_updateFirst (fun x : Task => x._id == id)
        { task with assignedBy := user._id } hid db.tasks, h]
      rfl
  obtain ⟨db1, hput, hfind⟩ := key
  rw [hput]
  refine ⟨rfl, by simp [hfind], ?_⟩
  simp only [deleteTaskRoute]
  rw [canDeleteTask_of_found _ user id _ hfind]
  simp [deleteTask, Reply.status]

/-! ## Theorems: task permissions -/

/-- C1: for an existing task, `canEditTask` calls `next()` exactly when the actor
is an admin, the creator (`assignedBy`) or the assignee (`assignedTo`); in every
other case it stops the request with status 403. -/
theorem canEditTask_next_iff (db : Db) (user : User) (id : ObjectId) (task : Task)
    (h : Task.findById db id = some task) :
    (canEditTask db user id = .next task ↔
      (user.role = "admin" ∨ user._id = task.assignedBy ∨ user._id = task.assignedTo)) ∧
    ((canEditTask db user id).status = some 403 ↔
      ¬ (user.role = "admin" ∨ user._id = task.assignedBy ∨ user._id = task.assignedTo)) := by
  rw [canEditTask_of_found db user id task h]
  by_cases ha : user.role = "admin" ∨ user._id = task.assignedBy ∨ user._id = task.assignedTo
  · simp [ha, Outcome.status]
  · simp [ha, Outcome.status, errorStatus]

theorem canEditTask_next_iff_witness :
    Task.findById sampleDb 10 = some sampleTask ∧
    (canEditTask sampleDb memberM 10 = .next sampleTask ↔
      (memberM.role = "admin" ∨ memberM._id = sampleTask.assignedBy ∨
        memberM._id = sampleTask.assignedTo)) ∧
    ((canEditTask sampleDb memberM 10).status = some 403 ↔
      ¬ (memberM.role = "admin" ∨ memberM._id = sampleTask.assignedBy ∨
        memberM._id = sampleTask.assignedTo)) :=
  ⟨by decide, canEditTask_next_iff sampleDb memberM 10 sampleTask (by decide)⟩

/-- C2: for an existing task, `canDeleteTask` lets the request through exactly
when the actor is an admin or the creator (`assignedBy`); otherwise the DELETE
route answers 403 and the store, hence the task, is unchanged.  When let
through, the route runs `deleteTask` on that task. -/
theorem canDeleteTask_next_iff (db : Db) (user : User) (id : ObjectId) (task : Task)
    (h : Task.findById db id = some task) :
    (canDeleteTask db user id = .next task ↔
      (user.role = "admin" ∨ user._id = task.assignedBy)) ∧
    ((deleteTaskRoute db user id).1.status = 403 ↔
      ¬ (user.role = "admin" ∨ user._id = task.assignedBy)) ∧
    (¬ (user.role = "admin" ∨ user._id = task.assignedBy) →
      (deleteTaskRoute db user id).2 = db ∧
      Task.findById (deleteTaskRoute db user id).2 id = some task) ∧
    ((user.role = "admin" ∨ user._id = task.assignedBy) →
      deleteTaskRoute db user id = deleteTask db task id) := by
  unfold deleteTaskRoute
  rw [canDeleteTask_of_found db user id task h]
  by_cases ha : user.role = "admin" ∨ user._id = task.assignedBy
  · simp [ha, deleteTask, Reply.status]
  · simp [ha, Reply.status, errorStatus, h]

theorem canDeleteTask_next_iff_witness :
    Task.findById sampleDb 10 = some sampleTask ∧
    (canDeleteTask sampleDb memberM 10 = .next sampleTask ↔
      (memberM.role = "admin" ∨ memberM._id = sampleTask.assignedBy)) ∧
    ((deleteTaskRoute sampleDb memberM 10).1.status = 403 ↔
      ¬ (memberM.role = "admin" ∨ memberM._id = sampleTask.assignedBy)) ∧
    (¬ (memberM.role = "admin" ∨ memberM._id = sampleTask.assignedBy) →
      (deleteTaskRoute sampleDb memberM 10).2 = sampleDb ∧
      Task.findById (deleteTaskRoute sampleDb memberM 10).2 10 = some sampleTask) ∧
    ((memberM.role = "admin" ∨ memberM._id = sampleTask.assignedBy) →
      deleteTaskRoute sampleDb memberM 10 = deleteTask sampleDb sampleTask 10) :=
  ⟨by decide, canDeleteTask_next_iff sampleDb memberM 10 sampleTask (by decide)⟩

/-- C3: for an existing task and a non-admin actor who is not its creator, the
DELETE route answers 403 and leaves the store unchanged, and `canEditTask` lets
the actor through exactly when the actor is the assignee; an actor who is not the
assignee either is stopped with 403, and a PUT from that actor changes nothing. -/
theorem non_creator_edit_delete (db : Db) (user : User) (id : ObjectId) (task : Task)
    (h : Task.findById db id = some task)
    (hrole : user.role ≠ "admin") (hcreator : user._id ≠ task.assignedBy) :
    ((deleteTaskRoute db user id).1.status = 403 ∧ (deleteTaskRoute db user id).2 = db) ∧
    (canEditTask db user id = .next task ↔ user._id = task.assignedTo) ∧
    (user._id ≠ task.assignedTo →
      (canEditTask db user id).status = some 403 ∧
      ∀ body : TaskBody, (putTask db user id body).2 = db ∧
        ((putTask db user id body).1.status = 403 ∨
          (putTask db user id body).1.status = 422)) := by
  refine ⟨?_, ?_, ?_⟩
  · unfold deleteTaskRoute
    rw [canDeleteTask_of_found db user id task h]
    simp [hrole, hcreator, Reply.status, errorStatus]
  · rw [canEditTask_of_found db user id task h]
    by_cases ht : user._id = task.assignedTo
    · simp [ht]
    · simp [hrole, hcreator, ht]
  · intro ht
    have hc := canEditTask_of_found db user id task h
    simp only [hrole, hcreator, ht, or_self, if_false] at hc
    refine ⟨by simp [hc, Outcome.status, errorStatus], ?_⟩
    intro body
    unfold putTask
    cases hv : updateTaskValidation db body with
    | none => simp [Reply.status]
    | some body1 => simp [hc, Reply.status, errorStatus]

theorem non_creator_edit_delete_witness :
    ((deleteTaskRoute sampleDb memberM 10).1.status = 403 ∧
      (deleteTaskRoute sampleDb memberM 10).2 = sampleDb) ∧
    (canEditTask sampleDb memberM 10 = .next sampleTask ↔
      memberM._id = sampleTask.assignedTo) ∧
    (memberM._id ≠ sampleTask.assignedTo →
      (canEditTask sampleDb memberM 10).status = some 403 ∧
      ∀ body : TaskBody, (putTask sampleDb memberM 10 body).2 = sampleDb ∧
        ((putTask sampleDb memberM 10 body).1.status = 403 ∨
          (putTask sampleDb memberM 10 body).1.status = 422)) :=
  non_creator_edit_delete sampleDb memberM 10 sampleTask (by decide) (by decide) (by decide)

/-- C4 (the code departs from the claim): the assignee of `sampleTask`, neither
admin nor creator, is refused DELETE (403); the same actor sends PUT with the
body `takeoverBody`, which `updateTask` hands whole to `findByIdAndUpdate`: the
reply is 200 and the stored `assignedBy` is now the actor; the same DELETE then
answers 200 and the task is gone. -/
theorem assignee_put_assignedBy_then_delete :
    memberM.role ≠ "admin" ∧ memberM._id ≠ sampleTask.assignedBy ∧
    memberM._id = sampleTask.assignedTo ∧
    Task.findById sampleDb 10 = some sampleTask ∧
    (deleteTaskRoute sampleDb memberM 10).1.status = 403 ∧
    (putTask sampleDb memberM 10 takeoverBody).1.status = 200 ∧
    (Task.findById (putTask sampleDb memberM 10 takeoverBody).2 10).map (fun t => t.assignedBy)
      = some memberM._id ∧
    (deleteTaskRoute (putTask sampleDb memberM 10 takeoverBody).2 memberM 10).1.status = 200 ∧
    Task.findById (deleteTaskRoute (putTask sampleDb memberM 10 takeoverBody).2 memberM 10).2 10
      = none := by
  decide

/-- C5 (counterexample): the body `spacedBody` passes validation and a task is
created with status 201, but its stored title is "Rapport" while the body gave
"  Rapport  ": the title is not the one given in the body. -/
theorem postTask_title_not_as_given :
    (createTaskValidation sampleDb spacedBody).isSome ∧
    (postTask sampleDb leaderL spacedBody).1.status = 201 ∧
    spacedBody.title = some "  Rapport  " ∧
    (postTask sampleDb leaderL spacedBody).1.task?.map (fun t => t.title) = some "Rapport" ∧
    (postTask sampleDb leaderL spacedBody).1.task?.map (fun t => some t.title)
      ≠ some spacedBody.title := by
  decide

/-- C5 (amended): for every actor and every body accepted by the request
validators and by the schema validators (trimmed title of at most 100 and
description of at most 500 code units), POST /api/tasks answers 201 and appends
one task whose `assignedBy` is the actor whatever `assignedBy` the body carries,
whose `assignedTo` is the one of the body, whose title and description are the
ones of the body with surrounding white space removed (description '' when
absent), and whose status and priority are the ones of the body when present
and the defaults 'à_faire' and 'faible' otherwise. -/
theorem postTask_created_fields (db : Db) (user : User) (body : TaskBody)
    (hv : (createTaskValidation db body).isSome)
    (htitle : jsLength (jsTrim (body.title.getD "")) ≤ 100)
    (hdesc : jsLength ((body.description.map jsTrim).getD "") ≤ 500) :
    ∃ t : Task,
      postTask db user body =
        (.json 201 (populateTask { db with tasks := db.tasks ++ [t] } t),
          { db with tasks := db.tasks ++ [t] }) ∧
      t.assignedBy = user._id ∧
      some t.assignedTo = body.assignedTo ∧
      some t.title = body.title.map jsTrim ∧
      t.description = (body.description.map jsTrim).getD "" ∧
      t.status = body.status.getD "à_faire" ∧
      t.priority = body.priority.getD "faible" := by
  obtain ⟨title, description, status, priority, assignedTo, assignedBy, team⟩ := body
  cases title with
  | none => simp [createTaskValidation, jsTrim, trimList] at hv
  | some title =>
    cases assignedTo with
    | none => simp [createTaskValidation] at hv
    | some assignedTo =>
      simp only [createTaskValidation, Option.getD_some] at hv
      split at hv
      · rename_i hcond
        have hc := hcond
        simp only [Bool.and_eq_true, bne_iff_ne, ne_eq, decide_eq_true_eq] at hc
        obtain ⟨⟨⟨⟨hne, _⟩, _⟩, hst⟩, hpr⟩ := hc
        have hst1 : VALID_STATUSES.contains (status.getD "à_faire") = true := by
          cases status with
          | none => decide
          | some v => simpa [optionalIsIn] using hst
        have hpr1 : VALID_PRIORITIES.contains (priority.getD "faible") = true := by
          cases priority with
          | none => decide
          | some v => simpa [optionalIsIn] using hpr
        simp only [Option.getD_some] at htitle
        refine ⟨{ _id := db.freshId, title := jsTrim title,
                  description := (description.map jsTrim).getD "",
                  status := status.getD "à_faire", priority := priority.getD "faible",
                  assignedTo := assignedTo, assignedBy := user._id, team := none }, ?_, ?_⟩
        · simp only [postTask, createTaskValidation, Option.getD_some]
          rw [if_pos hcond]
          have hst2 : status.getD "à_faire" ∈ VALID_STATUSES := by simpa using hst1
          have hpr2 : priority.getD "faible" ∈ VALID_PRIORITIES := by simpa using hpr1
          simp [createTask, Task.create, Task.valid, jsTrim_idem, hne, htitle, hdesc,
            hst2, hpr2]
        · simp
      · simp at hv

theorem postTask_created_fields_witness :
    (createTaskValidation sampleDb spacedBody).isSome ∧
    ∃ t : Task,
      postTask sampleDb leaderL spacedBody =
        (.json 201 (populateTask { sampleDb with tasks := sampleDb.tasks ++ [t] } t),
          { sampleDb with tasks := sampleDb.tasks ++ [t] }) ∧
      t.assignedBy = leaderL._id ∧
      some t.assignedTo = spacedBody.assignedTo ∧
      some t.title = spacedBody.title.map jsTrim ∧
      t.description = (spacedBody.description.map jsTrim).getD "" ∧
      t.status = spacedBody.status.getD "à_faire" ∧
      t.priority = spacedBody.priority.getD "faible" :=
  ⟨by decide,
    postTask_created_fields sampleDb leaderL spacedBody (by decide) (by decide) (by decide)⟩

/-! ## Theorems: teams -/

/-- C6: starting from a store in which every team has its leader among its
members (in particular a store without teams), after any sequence of
`createTeam`, `addMemberToTeam` and `removeMemberFromTeam` requests, whatever
strings they carry as `userId` and `memberId`, each saved through the
`pre('save')` hook, every stored team has its leader among its members. -/
theorem leader_in_members_after_ops (db : Db) (ops : List TeamOp)
    (h : ∀ t ∈ db.teams, t.leader ∈ t.members) :
    ∀ t ∈ (runTeamOps db ops).teams, t.leader ∈ t.members := by
  unfold runTeamOps
  induction ops generalizing db with
  | nil => exact h
  | cons op rest ih =>
    simp only [List.foldl_cons]
    exact ih (op.run db).2 (teamOp_keeps_leader db op h)

theorem leader_in_members_after_ops_witness :
    (∀ t ∈ usersH.teams, t.leader ∈ t.members) ∧
    (runTeamOps usersH (upperCaseRemoveOps.take 2)).teams.map (fun t => (t.leader, t.members))
      = [(0x507f1f77bcf86cd799439011,
          [0x507f1f77bcf86cd799439011, 0x507f191e810c19729de860ea])] ∧
    (runTeamOps usersH upperCaseRemoveOps).teams.map (fun t => (t.leader, t.members))
      = [(0x507f1f77bcf86cd799439011,
          [0x507f191e810c19729de860ea, 0x507f1f77bcf86cd799439011])] ∧
    (runTeamOps usersOnlyDb scenarioOps).teams.map (fun t => (t.leader, t.members))
      = [(1, [1])] ∧
    ∀ t ∈ (runTeamOps usersH upperCaseRemoveOps).teams, t.leader ∈ t.members :=
  ⟨by decide, by decide, by decide, by decide,
    leader_in_members_after_ops usersH upperCaseRemoveOps (by decide)⟩

/-- C7: for an existing team, each of add member, remove member and delete team
answers 403 exactly when the actor is not the leader of the team, whatever the
role of the actor and whatever string the request carries as `userId` or
`memberId`; in that case the store is unchanged. -/
theorem leader_gate (db : Db) (user : User) (id : ObjectId) (team : Team)
    (h : Team.findById db id = some team) :
    (∀ userId : String,
      ((addMemberToTeam db user id userId).1.status = 403 ↔ user._id ≠ team.leader) ∧
      (user._id ≠ team.leader → (addMemberToTeam db user id userId).2 = db)) ∧
    (∀ memberId : String,
      ((removeMemberFromTeam db user id memberId).1.status = 403 ↔ user._id ≠ team.leader) ∧
      (user._id ≠ team.leader → (removeMemberFromTeam db user id memberId).2 = db)) ∧
    ((deleteTeam db user id).1.status = 403 ↔ user._id ≠ team.leader) ∧
    (user._id ≠ team.leader → (deleteTeam db user id).2 = db) := by
  by_cases hl : team.leader = user._id
  · have hl1 : user._id = team.leader := hl.symm
    refine ⟨?_, ?_, ?_, ?_⟩
    · intro userId
      unfold addMemberToTeam
      simp only [h, hl, bne_self_eq_false, Bool.false_eq_true, if_false, ne_eq,
        not_true_eq_false, iff_false, false_implies, and_true]
      split
      · simp [Reply.status, errorStatus]
      · split
        · simp [Reply.status, errorStatus]
        · split
          · simp [Reply.status, errorStatus]
          · split <;> simp [Reply.status]
    · intro memberId
      unfold removeMemberFromTeam
      simp only [h, hl, bne_self_eq_false, Bool.false_eq_true, if_false, ne_eq,
        not_true_eq_false, iff_false, false_implies, and_true]
      split
      · simp [Reply.status, errorStatus]
      · split
        · simp [Reply.status, errorStatus]
        · split <;> simp [Reply.status]
    · unfold deleteTeam
      simp [h, hl, Reply.status]
    · intro hne
      exact absurd hl1 hne
  · have hl1 : user._id ≠ team.leader := fun e => hl e.symm
    have hb : (team.leader != user._id) = true := by simpa using hl
    refine ⟨?_, ?_, ?_, ?_⟩
    · intro userId
      unfold addMemberToTeam
      simp [h, hb, hl1, Reply.status, errorStatus]
    · intro memberId
      unfold removeMemberFromTeam
      simp [h, hb, hl1, Reply.status, errorStatus]
    · unfold deleteTeam
      simp [h, hb, hl1, Reply.status, errorStatus]
    · intro _
      unfold deleteTeam
      simp [h, hb]

theorem leader_gate_witness :
    Team.findById sampleDb 20 = some sampleTeam ∧ adminA.role = "admin" ∧
    (∀ userId : String,
      ((addMemberToTeam sampleDb adminA 20 userId).1.status = 403 ↔
        adminA._id ≠ sampleTeam.leader) ∧
      (adminA._id ≠ sampleTeam.leader → (addMemberToTeam sampleDb adminA 20 userId).2 = sampleDb)) ∧
    (∀ memberId : String,
      ((removeMemberFromTeam sampleDb adminA 20 memberId).1.status = 403 ↔
        adminA._id ≠ sampleTeam.leader) ∧
      (adminA._id ≠ sampleTeam.leader →
        (removeMemberFromTeam sampleDb adminA 20 memberId).2 = sampleDb)) ∧
    ((deleteTeam sampleDb adminA 20).1.status = 403 ↔ adminA._id ≠ sampleTeam.leader) ∧
    (adminA._id ≠ sampleTeam.leader → (deleteTeam sampleDb adminA 20).2 = sampleDb) :=
  ⟨by decide, by decide, leader_gate sampleDb adminA 20 sampleTeam (by decide)⟩

/-- C8: for an existing team and an actor who is a stored user, `getTeamById`
answers 200 with the populated team exactly when the actor is an admin or the
actor's id is among the members of the team; otherwise it answers 403.  The
store is never changed. -/
theorem getTeamById_ok_iff (db : Db) (user : User) (id : ObjectId) (team : Team)
    (h : Team.findById db id = some team)
    (hu : (User.findById db user._id).isSome) :
    ((getTeamById db user id).1.status = 200 ↔
      (user.role = "admin" ∨ user._id ∈ team.members)) ∧
    ((getTeamById db user id).1.status = 403 ↔
      ¬ (user.role = "admin" ∨ user._id ∈ team.members)) ∧
    ((user.role = "admin" ∨ user._id ∈ team.members) →
      (getTeamById db user id).1 = .json 200 (populateTeam db team)) ∧
    (getTeamById db user id).2 = db := by
  have hany := populated_any_iff db user._id team.members hu
  unfold getTeamById
  simp only [h]
  by_cases hm : user._id ∈ team.members
  · have ha := hany.mpr hm
    simp [ha, hm, Reply.status, populateTeam]
  · have ha : (team.members.filterMap (User.findById db)).any
        (fun member => member._id == user._id) = false := by
      cases hb : (team.members.filterMap (User.findById db)).any
          (fun member => member._id == user._id) with
      | false => rfl
      | true => exact absurd (hany.mp hb) hm
    by_cases hr : user.role = "admin"
    · simp [ha, hm, hr, Reply.status, populateTeam]
    · simp [ha, hm, hr, Reply.status, errorStatus]

theorem getTeamById_ok_iff_witness :
    Team.findById sampleDb 20 = some sampleTeam ∧
    (User.findById sampleDb outsiderO._id).isSome ∧
    (getTeamById sampleDb outsiderO 20).1.status = 403 ∧
    (getTeamById sampleDb adminA 20).1.status = 200 ∧
    (((getTeamById sampleDb leaderL 20).1.status = 200 ↔
      (leaderL.role = "admin" ∨ leaderL._id ∈ sampleTeam.members)) ∧
    ((getTeamById sampleDb leaderL 20).1.status = 403 ↔
      ¬ (leaderL.role = "admin" ∨ leaderL._id ∈ sampleTeam.members)) ∧
    ((leaderL.role = "admin" ∨ leaderL._id ∈ sampleTeam.members) →
      (getTeamById sampleDb leaderL 20).1 = .json 200 (populateTeam sampleDb sampleTeam)) ∧
    (getTeamById sampleDb leaderL 20).2 = sampleDb) :=
  ⟨by decide, by decide, by decide, by decide,
    getTeamById_ok_iff sampleDb leaderL 20 sampleTeam (by decide) (by decide)⟩

/-! ## Lemmas: reading a team back after a save -/

theorem updateFirst_of_find? {α : Type} (p : α → Bool) (x : α) (l : List α)
    (h : l.find? p = some x) : updateFirst p (fun _ => x) l = l := by
  induction l with
  | nil => simp at h
  | cons a t ih =>
    unfold updateFirst
    by_cases hp : p a = true
    · simp only [List.find?_cons, hp] at h
      simp only [hp, if_true]
      rw [Option.some.inj h]
    · simp only [List.find?_cons, hp] at h
      simp only [hp]
      rw [ih h]
      rfl

theorem updateFirst_updateFirst {α : Type} (p : α → Bool) (y z : α) (hy : p y = true)
    (l : List α) :
    updateFirst p (fun _ => z) (updateFirst p (fun _ => y) l) = updateFirst p (fun _ => z) l := by
  induction l with
  | nil => simp [updateFirst]
  | cons a t ih =>
    by_cases hp : p a = true
    · simp [updateFirst, hp, hy]
    · simp [updateFirst, hp, ih]

theorem findById_id (db : Db) (id : ObjectId) (team : Team)
    (h : Team.findById db id = some team) : team._id = id := by
  have := List.find?_some h
  simpa using this

theorem preSave_of_leader_mem (t : Team) (h : t.leader ∈ t.members) : t.preSave true = t := by
  unfold Team.preSave
  simp [h]

theorem preSave_id (b : Bool) (t : Team) : (t.preSave b)._id = t._id := by
  unfold Team.preSave
  split <;> rfl

/-- Saving a version of the team stored under `id` writes that version as the
hook leaves it, and `findById` reads it back. -/
theorem save_findById_preSave (db : Db) (id : ObjectId) (team team1 : Team)
    (h : Team.findById db id = some team) (hid : team1._id = id) :
    (Team.save db team1).2
      = ⟨db.users, db.tasks,
          updateFirst (fun t => t._id == id) (fun _ => team1.preSave true) db.teams⟩ ∧
    Team.findById (Team.save db team1).2 id = some (team1.preSave true) := by
  have hsave : (Team.save db team1).2
      = ⟨db.users, db.tasks,
          updateFirst (fun t => t._id == id) (fun _ => team1.preSave true) db.teams⟩ := by
    simp [Team.save, hid]
  refine ⟨hsave, ?_⟩
  rw [hsave]
  unfold Team.findById at h ⊢
  simp only
  rw [find?_updateFirst (fun t : Team => t._id == id) (team1.preSave true)
    (by simp [preSave_id, hid]) db.teams, h]
  rfl

/-- Saving a version of the team stored under `id` that already holds its leader
writes exactly that version, and `findById` reads it back. -/
theorem save_findById (db : Db) (id : ObjectId) (team team1 : Team)
    (h : Team.findById db id = some team) (hid : team1._id = id)
    (hl : team1.leader ∈ team1.members) :
    (Team.save db team1).2
      = ⟨db.users, db.tasks, updateFirst (fun t => t._id == id) (fun _ => team1) db.teams⟩ ∧
    Team.findById (Team.save db team1).2 id = some team1 := by
  have hs := save_findById_preSave db id team team1 h hid
  rw [preSave_of_leader_mem team1 hl] at hs
  exact hs

/-- The successful path of `addMemberToTeam` in closed form: the request string
casts to `u`, a stored user, and `includes` does not find the string. -/
theorem addMemberToTeam_success (db : Db) (user : User) (id : ObjectId) (userId : String)
    (u : ObjectId) (team : Team)
    (h : Team.findById db id = some team) (hl : user._id = team.leader)
    (hinv : team.leader ∈ team.members)
    (hc : castObjectId userId = some u)
    (hu : (User.findById db u).isSome) (hinc : membersIncludes team.members userId = false) :
    addMemberToTeam db user id userId =
      (.json 200 (populateTeam
          ⟨db.users, db.tasks, updateFirst (fun t => t._id == id)
            (fun _ => { team with members := team.members ++ [u] }) db.teams⟩
          { team with members := team.members ++ [u] }),
        ⟨db.users, db.tasks, updateFirst (fun t => t._id == id)
          (fun _ => { team with members := team.members ++ [u] }) db.teams⟩) := by
  obtain ⟨usr, hu1⟩ := Option.isSome_iff_exists.mp hu
  have hid := findById_id db id team h
  have hs := save_findById db id team { team with members := team.members ++ [u] } h hid
    (List.mem_append_left _ hinv)
  unfold addMemberToTeam
  simp only [h, hl, bne_self_eq_false, Bool.false_eq_true, if_false, hc, hu1, hinc]
  rw [hs.1]
  show (match Team.findById _ id with
    | none => _
    | some updatedTeam => _) = _
  rw [← hs.1, hs.2]

/-- The path of `removeMemberFromTeam` that saves, in closed form: the request
string is not the `toString()` of the leader and casts to `mid`. -/
theorem removeMemberFromTeam_saved (db : Db) (user : User) (id : ObjectId) (memberId : String)
    (mid : ObjectId) (team : Team)
    (h : Team.findById db id = some team) (hl : user._id = team.leader)
    (hsp : ObjectId.toString team.leader ≠ memberId)
    (hc : castObjectId memberId = some mid) :
    removeMemberFromTeam db user id memberId =
      (.json 200 (populateTeam
          ⟨db.users, db.tasks, updateFirst (fun t => t._id == id)
            (fun _ => Team.preSave true
              { team with members := team.members.filter (· != mid) }) db.teams⟩
          (Team.preSave true { team with members := team.members.filter (· != mid) })),
        ⟨db.users, db.tasks, updateFirst (fun t => t._id == id)
          (fun _ => Team.preSave true
            { team with members := team.members.filter (· != mid) }) db.teams⟩) := by
  have hid := findById_id db id team h
  have hs := save_findById_preSave db id team
    { team with members := team.members.filter (· != mid) } h hid
  unfold removeMemberFromTeam
  have hb : (ObjectId.toString team.leader == memberId) = false := by simpa using hsp
  simp only [h, hl, bne_self_eq_false, Bool.false_eq_true, if_false, hb, hc]
  rw [hs.1]
  show (match Team.findById _ id with
    | none => _
    | some updatedTeam => _) = _
  rw [← hs.1, hs.2]

/-- The successful path of `removeMemberFromTeam` for a string that casts to
another identifier than the leader: the hook adds nothing. -/
theorem removeMemberFromTeam_success (db : Db) (user : User) (id : ObjectId) (memberId : String)
    (mid : ObjectId) (team : Team)
    (h : Team.findById db id = some team) (hl : user._id = team.leader)
    (hinv : team.leader ∈ team.members) (hne : team.leader ≠ mid)
    (hc : castObjectId memberId = some mid) :
    removeMemberFromTeam db user id memberId =
      (.json 200 (populateTeam
          ⟨db.users, db.tasks, updateFirst (fun t => t._id == id)
            (fun _ => { team with members := team.members.filter (· != mid) }) db.teams⟩
          { team with members := team.members.filter (· != mid) }),
        ⟨db.users, db.tasks, updateFirst (fun t => t._id == id)
          (fun _ => { team with members := team.members.filter (· != mid) }) db.teams⟩) := by
  have hmem : team.leader ∈ team.members.filter (· != mid) := by
    simp [List.mem_filter, hinv, hne]
  have hsp : ObjectId.toString team.leader ≠ memberId := fun e =>
    hne (cast_of_toString team.leader mid memberId e hc).symm
  have hpre : Team.preSave true { team with members := team.members.filter (· != mid) }
      = { team with members := team.members.filter (· != mid) } :=
    preSave_of_leader_mem _ hmem
  rw [removeMemberFromTeam_saved db user id memberId mid team h hl hsp hc, hpre]

/-- With the `toString()` of the leader as `memberId`, the request of the leader
is refused with 400 and nothing is written. -/
theorem removeMemberFromTeam_leader_toString (db : Db) (user : User) (teamId : ObjectId)
    (team : Team) (h : Team.findById db teamId = some team) (hl : user._id = team.leader) :
    removeMemberFromTeam db user teamId (ObjectId.toString team.leader)
      = (.thrown 400 "Le leader ne peut pas être retiré de l'équipe.", db) := by
  unfold removeMemberFromTeam
  simp [h, hl]

/-- The two refusals of `addMemberToTeam` after the leader check: 404 when the
string casts to the id of no user, 400 when `includes` finds the string. -/
theorem addMemberToTeam_refusals (db : Db) (user : User) (id : ObjectId) (userId : String)
    (u : ObjectId) (team : Team)
    (h : Team.findById db id = some team) (hl : user._id = team.leader)
    (hc : castObjectId userId = some u) :
    (User.findById db u = none →
      addMemberToTeam db user id userId
        = (.thrown 404 "Utilisateur à ajouter non trouvé.", db)) ∧
    ((User.findById db u).isSome → membersIncludes team.members userId = true →
      addMemberToTeam db user id userId
        = (.thrown 400 "Cet utilisateur est déjà membre de l'équipe", db)) := by
  unfold addMemberToTeam
  constructor
  · intro hn
    simp [h, hl, hc, hn]
  · intro hs hm
    obtain ⟨usr, hu⟩ := Option.isSome_iff_exists.mp hs
    simp [h, hl, hc, hu, hm]

/-! ## Theorems: requests that spell an identifier in upper case -/

/-- C9 (the code departs from the claim): for an existing team, a remove-member
request made by its leader whose `memberId` casts to the leader's own id
without being its `toString()` (the id written with upper-case digits) is not
refused: it answers 200, the leader is pulled from the members and pushed back
at their end by the `pre('save')` hook. -/
theorem remove_leader_other_spelling (db : Db) (user : User) (teamId : ObjectId) (team : Team)
    (memberId : String)
    (h : Team.findById db teamId = some team) (hl : user._id = team.leader)
    (hc : castObjectId memberId = some team.leader)
    (hsp : memberId ≠ ObjectId.toString team.leader) :
    (removeMemberFromTeam db user teamId memberId).1.status = 200 ∧
    (Team.findById (removeMemberFromTeam db user teamId memberId).2 teamId).map
      (fun t => t.members) = some (team.members.filter (· != team.leader) ++ [team.leader]) := by
  have hid := findById_id db teamId team h
  have hs := save_findById_preSave db teamId team
    { team with members := team.members.filter (· != team.leader) } h hid
  have hpre : Team.preSave true { team with members := team.members.filter (· != team.leader) }
      = { team with members := team.members.filter (· != team.leader) ++ [team.leader] } := by
    simp [Team.preSave]
  rw [removeMemberFromTeam_saved db user teamId memberId team.leader team h hl
    (fun e => hsp e.symm) hc]
  refine ⟨rfl, ?_⟩
  simp only
  rw [← hs.1, hs.2, hpre]
  rfl

theorem remove_leader_other_spelling_witness :
    Team.findById dbH 30 = some teamH ∧ leaderH._id = teamH.leader ∧
    ObjectId.toString teamH.leader = "507f1f77bcf86cd799439011" ∧
    castObjectId "507F1F77BCF86CD799439011" = some teamH.leader ∧
    teamH.members = [0x507f1f77bcf86cd799439011, 0x507f191e810c19729de860ea] ∧
    (removeMemberFromTeam dbH leaderH 30 "507f1f77bcf86cd799439011").1.status = 400 ∧
    (removeMemberFromTeam dbH leaderH 30 "507F1F77BCF86CD799439011").1.status = 200 ∧
    (Team.findById (removeMemberFromTeam dbH leaderH 30 "507F1F77BCF86CD799439011").2 30).map
      (fun t => t.members) = some [0x507f191e810c19729de860ea, 0x507f1f77bcf86cd799439011] ∧
    ((removeMemberFromTeam dbH leaderH 30 "507F1F77BCF86CD799439011").1.status = 200 ∧
    (Team.findById (removeMemberFromTeam dbH leaderH 30 "507F1F77BCF86CD799439011").2 30).map
      (fun t => t.members)
        = some (teamH.members.filter (· != teamH.leader) ++ [teamH.leader])) :=
  ⟨by decide, by decide, by decide, by decide, by decide, by decide, by decide, by decide,
    remove_leader_other_spelling dbH leaderH 30 teamH "507F1F77BCF86CD799439011"
      (by decide) (by decide) (by decide) (by decide)⟩

/-- C10 (the code departs from the claim): for an existing team that holds its
leader, an add-member request made by the leader whose `userId` casts to the id
`u` of an existing user who is already a member, without being the
`toString()` of `u` (the id written with upper-case digits), is not refused: it
answers 200 and `u` is stored once more at the end of the members, which then
hold `u` twice. -/
theorem add_member_other_spelling (db : Db) (user : User) (id : ObjectId) (team : Team)
    (userId : String) (u : ObjectId)
    (h : Team.findById db id = some team) (hl : user._id = team.leader)
    (hinv : team.leader ∈ team.members)
    (hc : castObjectId userId = some u) (hu : (User.findById db u).isSome)
    (hm : u ∈ team.members) (hsp : userId ≠ ObjectId.toString u) :
    (addMemberToTeam db user id userId).1.status = 200 ∧
    (Team.findById (addMemberToTeam db user id userId).2 id).map (fun t => t.members)
      = some (team.members ++ [u]) ∧
    ¬ (team.members ++ [u]).Nodup := by
  have hid := findById_id db id team h
  have hs := save_findById db id team { team with members := team.members ++ [u] } h hid
    (List.mem_append_left _ hinv)
  rw [addMemberToTeam_success db user id userId u team h hl hinv hc hu
    (membersIncludes_false_of_spelling team.members userId u hc hsp)]
  refine ⟨rfl, ?_, ?_⟩
  · simp only
    rw [← hs.1, hs.2]
    rfl
  · intro hnd
    have := (List.nodup_append.mp hnd).2.2
    exact this hm (List.mem_singleton_self u)

theorem add_member_other_spelling_witness :
    Team.findById dbH 30 = some teamH ∧ leaderH._id = teamH.leader ∧
    ObjectId.toString memberH._id = "507f191e810c19729de860ea" ∧
    castObjectId "507F191E810C19729DE860EA" = some memberH._id ∧
    teamH.members = [0x507f1f77bcf86cd799439011, 0x507f191e810c19729de860ea] ∧
    (addMemberToTeam dbH leaderH 30 "507f191e810c19729de860ea").1.status = 400 ∧
    (addMemberToTeam dbH leaderH 30 "507F191E810C19729DE860EA").1.status = 200 ∧
    (Team.findById (addMemberToTeam dbH leaderH 30 "507F191E810C19729DE860EA").2 30).map
      (fun t => t.members)
        = some [0x507f1f77bcf86cd799439011, 0x507f191e810c19729de860ea,
            0x507f191e810c19729de860ea] ∧
    castObjectId "42" = none ∧
    (addMemberToTeam dbH leaderH 30 "42").1.status = 500 ∧
    ((addMemberToTeam dbH leaderH 30 "507F191E810C19729DE860EA").1.status = 200 ∧
    (Team.findById (addMemberToTeam dbH leaderH 30 "507F191E810C19729DE860EA").2 30).map
      (fun t => t.members) = some (teamH.members ++ [memberH._id]) ∧
    ¬ (teamH.members ++ [memberH._id]).Nodup) :=
  ⟨by decide, by decide, by decide, by decide, by decide, by decide, by decide, by decide,
    by decide, by decide,
    add_member_other_spelling dbH leaderH 30 teamH "507F191E810C19729DE860EA" memberH._id
      (by decide) (by decide) (by decide) (by decide) (by decide) (by decide) (by decide)⟩

/-! ## Theorems: team creation and membership -/

/-- C11 (counterexample): two bodies with a non-empty name for which `createTeam`
stores no team: the name "Test Team" is already used by a stored team (unique
index), and a name of 51 characters exceeds `maxlength`; in both cases the
reply has status 500 and the store is unchanged. -/
theorem createTeam_stores_nothing :
    duplicateNameBody.name = some "Test Team" ∧
    (createTeam sampleDb memberM duplicateNameBody).1.status = 500 ∧
    (createTeam sampleDb memberM duplicateNameBody).2 = sampleDb ∧
    longNameBody.name.map jsLength = some 51 ∧
    (createTeam usersOnlyDb memberM longNameBody).1.status = 500 ∧
    (createTeam usersOnlyDb memberM longNameBody).2 = usersOnlyDb := by
  decide

/-- C11 (amended): for every actor and every body, whatever `leader` or
`members` the body carries: when the trimmed name is non-empty, has at most 50
code units and is not the name of a stored team, and the trimmed description has
at most 200 code units, `createTeam` answers 201 and appends one team whose
leader is the actor and whose members are exactly `[actor]`; and in every case
the store is either unchanged or extended by one such team. -/
theorem createTeam_leader_sole_member (db : Db) (user : User) (body : TeamBody) :
    (∀ name : String, body.name = some name →
      jsTrim name ≠ "" → jsLength (jsTrim name) ≤ 50 →
      (∀ d, body.description = some d → jsLength (jsTrim d) ≤ 200) →
      (∀ t ∈ db.teams, t.name ≠ jsTrim name) →
      ∃ team : Team,
        createTeam db user body
          = (.json 201 (.team team), ⟨db.users, db.tasks, db.teams ++ [team]⟩) ∧
        team.leader = user._id ∧ team.members = [user._id] ∧
        team.name = jsTrim name ∧ team.description = body.description.map jsTrim) ∧
    ((createTeam db user body).2 = db ∨
      ∃ team : Team,
        (createTeam db user body).2 = ⟨db.users, db.tasks, db.teams ++ [team]⟩ ∧
        team.leader = user._id ∧ team.members = [user._id]) := by
  constructor
  · intro name hname hne hlen hdesc hfree
    have hname0 : name ≠ "" := by
      intro h0
      apply hne
      rw [h0]
      decide
    have hd : (match body.description.map jsTrim with
        | none => true
        | some d => decide (jsLength d ≤ 200)) = true := by
      cases hb : body.description with
      | none => rfl
      | some d => simpa using hdesc d hb
    have hany : (db.teams.any fun t => t.name == jsTrim name) = false := by
      rw [Bool.eq_false_iff]
      intro hcontra
      obtain ⟨t, ht, heq⟩ := List.any_eq_true.mp hcontra
      exact hfree t ht (by simpa using heq)
    refine ⟨⟨db.freshId, jsTrim name, body.description.map jsTrim, [user._id], user._id⟩,
      ?_, rfl, rfl, rfl, rfl⟩
    simp [createTeam, hname, hname0, Team.create, Team.valid, Team.preSave, hne, hlen, hd, hany]
  · unfold createTeam
    split
    · exact Or.inl rfl
    · split
      · exact Or.inl rfl
      · split
        · exact Or.inl rfl
        · rename_i hc
          right
          unfold Team.create at hc
          simp only at hc
          split at hc
          · exact absurd hc (by simp)
          · split at hc
            · exact absurd hc (by simp)
            · simp only [Option.some.injEq, Prod.mk.injEq] at hc
              obtain ⟨hteam, hdb⟩ := hc
              refine ⟨_, hdb.symm, ?_, ?_⟩
              · simp [Team.preSave]
              · simp [Team.preSave]

theorem createTeam_leader_sole_member_witness :
    (∃ team : Team,
      createTeam sampleDb memberM otherTeamBody
        = (.json 201 (.team team),
            ⟨sampleDb.users, sampleDb.tasks, sampleDb.teams ++ [team]⟩) ∧
      team.leader = memberM._id ∧ team.members = [memberM._id] ∧
      team.name = jsTrim "  Another Team " ∧
      team.description = otherTeamBody.description.map jsTrim) ∧
    (createTeam sampleDb memberM otherTeamBody).2.teams.map (fun t => (t.leader, t.members))
      = [(1, [1]), (2, [2])] :=
  ⟨(createTeam_leader_sole_member sampleDb memberM otherTeamBody).1 "  Another Team "
      (by decide) (by decide) (by decide) (by decide) (by decide),
    by decide⟩

/-- C12: for a stored team that holds its leader, an add-member request by the
leader whose `userId` casts (in any spelling) to the id `u` of an existing user
who is not a member answers 200, and the stored membership becomes the previous
members followed by `u`: every previous member is kept, `u` is present and the
count grows by one; nothing else in the store changes. -/
theorem add_member_appends (db : Db) (user : User) (id : ObjectId) (userId : String)
    (u : ObjectId) (team : Team)
    (h : Team.findById db id = some team) (hl : user._id = team.leader)
    (hinv : team.leader ∈ team.members)
    (hc : castObjectId userId = some u)
    (hu : (User.findById db u).isSome) (hnm : u ∉ team.members) :
    (addMemberToTeam db user id userId).1.status = 200 ∧
    (addMemberToTeam db user id userId).2
      = ⟨db.users, db.tasks, updateFirst (fun t => t._id == id)
          (fun _ => { team with members := team.members ++ [u] }) db.teams⟩ ∧
    (∃ team1 : Team,
      Team.findById (addMemberToTeam db user id userId).2 id = some team1 ∧
      (addMemberToTeam db user id userId).1
        = .json 200 (populateTeam (addMemberToTeam db user id userId).2 team1) ∧
      team1.members = team.members ++ [u] ∧
      (∀ m ∈ team.members, m ∈ team1.members) ∧
      u ∈ team1.members ∧
      team1.members.length = team.members.length + 1 ∧
      team1.leader = team.leader) := by
  have hid := findById_id db id team h
  have hs := save_findById db id team { team with members := team.members ++ [u] } h hid
    (List.mem_append_left _ hinv)
  rw [addMemberToTeam_success db user id userId u team h hl hinv hc hu
    (membersIncludes_false_of_cast team.members userId u hc hnm)]
  refine ⟨rfl, rfl, { team with members := team.members ++ [u] }, ?_, rfl, rfl, ?_, ?_, ?_, rfl⟩
  · rw [← hs.1]; exact hs.2
  · intro m hm; exact List.mem_append_left _ hm
  · simp
  · simp

theorem add_member_appends_witness :
    Team.findById sampleDb 20 = some sampleTeam ∧
    castObjectId "000000000000000000000002" = some 2 ∧
    (addMemberToTeam sampleDb leaderL 20 "000000000000000000000002").2.teams.map
      (fun t => t.members) = [[1, 2]] ∧
    (addMemberToTeam dbH leaderH 30 "507F191E810C19729DE860EB").1.status = 404 ∧
    ((addMemberToTeam sampleDb leaderL 20 "000000000000000000000002").1.status = 200 ∧
    (addMemberToTeam sampleDb leaderL 20 "000000000000000000000002").2
      = ⟨sampleDb.users, sampleDb.tasks, updateFirst (fun t => t._id == 20)
          (fun _ => { sampleTeam with members := sampleTeam.members ++ [2] }) sampleDb.teams⟩ ∧
    (∃ team1 : Team,
      Team.findById (addMemberToTeam sampleDb leaderL 20 "000000000000000000000002").2 20
        = some team1 ∧
      (addMemberToTeam sampleDb leaderL 20 "000000000000000000000002").1
        = .json 200
            (populateTeam (addMemberToTeam sampleDb leaderL 20 "000000000000000000000002").2
              team1) ∧
      team1.members = sampleTeam.members ++ [2] ∧
      (∀ m ∈ sampleTeam.members, m ∈ team1.members) ∧
      2 ∈ team1.members ∧
      team1.members.length = sampleTeam.members.length + 1 ∧
      team1.leader = sampleTeam.leader)) :=
  ⟨by decide, by decide, by decide, by decide,
    add_member_appends sampleDb leaderL 20 "000000000000000000000002" 2 sampleTeam
      (by decide) (by decide) (by decide) (by decide) (by decide) (by decide)⟩

/-- C13: for a stored team that holds its leader and an existing user `u` who
is not a member, the leader adding `u` and then removing `u`, the two requests
carrying strings that cast to `u` (in any spelling, not necessarily the same),
gets 200 both times, `u` differs from the leader, and the store after the two
requests is the store before them: the members of the team are what they were
before the add. -/
theorem remove_undoes_add (db : Db) (user : User) (id : ObjectId) (userId memberId : String)
    (u : ObjectId) (team : Team)
    (h : Team.findById db id = some team) (hl : user._id = team.leader)
    (hinv : team.leader ∈ team.members)
    (hc : castObjectId userId = some u) (hc2 : castObjectId memberId = some u)
    (hu : (User.findById db u).isSome) (hnm : u ∉ team.members) :
    u ≠ team.leader ∧
    (addMemberToTeam db user id userId).1.status = 200 ∧
    (removeMemberFromTeam (addMemberToTeam db user id userId).2 user id memberId).1.status
      = 200 ∧
    (removeMemberFromTeam (addMemberToTeam db user id userId).2 user id memberId).2 = db ∧
    Team.findById (removeMemberFromTeam (addMemberToTeam db user id userId).2 user id memberId).2
      id = some team := by
  have hid := findById_id db id team h
  have hne : team.leader ≠ u := fun e => hnm (e ▸ hinv)
  have hs := save_findById db id team { team with members := team.members ++ [u] } h hid
    (List.mem_append_left _ hinv)
  have hadd := addMemberToTeam_success db user id userId u team h hl hinv hc hu
    (membersIncludes_false_of_cast team.members userId u hc hnm)
  have hfind1 : Team.findById (addMemberToTeam db user id userId).2 id
      = some { team with members := team.members ++ [u] } := by
    rw [hadd]
    simp only
    rw [← hs.1]
    exact hs.2
  have hrem := removeMemberFromTeam_success (addMemberToTeam db user id userId).2 user id memberId
    u { team with members := team.members ++ [u] } hfind1 hl
    (List.mem_append_left _ hinv) hne hc2
  have hfilter : (team.members ++ [u]).filter (· != u) = team.members := by
    rw [List.filter_append]
    have h1 : team.members.filter (· != u) = team.members := by
      apply List.filter_eq_self.mpr
      intro m hm
      have : m ≠ u := fun e => hnm (e ▸ hm)
      simpa using this
    simp [h1]
  have hdb : (removeMemberFromTeam (addMemberToTeam db user id userId).2 user id memberId).2
      = db := by
    rw [hrem]
    simp only [hfilter]
    rw [hadd]
    simp only
    rw [updateFirst_updateFirst (fun t : Team => t._id == id) _ _ (by simp [hid]) db.teams]
    have hupd := updateFirst_of_find? (fun t : Team => t._id == id) team db.teams h
    rw [hupd]
  refine ⟨fun e => hne e.symm, by rw [hadd]; rfl, by rw [hrem]; rfl, hdb, ?_⟩
  rw [hdb]
  exact h

theorem remove_undoes_add_witness :
    Team.findById sampleDb 20 = some sampleTeam ∧
    castObjectId "507f191e810c19729de860ea" = some memberH._id ∧
    castObjectId "507F191E810C19729DE860EA" = some memberH._id ∧
    (removeMemberFromTeam
      (addMemberToTeam
        (createTeam usersH leaderH { name := some "Équipe H" }).2 leaderH
        0x507f1f77bcf86cd799439012 "507f191e810c19729de860ea").2 leaderH
      0x507f1f77bcf86cd799439012 "507F191E810C19729DE860EA").2
      = (createTeam usersH leaderH { name := some "Équipe H" }).2 ∧
    ((2 : ObjectId) ≠ sampleTeam.leader ∧
    (addMemberToTeam sampleDb leaderL 20 "000000000000000000000002").1.status = 200 ∧
    (removeMemberFromTeam (addMemberToTeam sampleDb leaderL 20 "000000000000000000000002").2
      leaderL 20 "000000000000000000000002").1.status = 200 ∧
    (removeMemberFromTeam (addMemberToTeam sampleDb leaderL 20 "000000000000000000000002").2
      leaderL 20 "000000000000000000000002").2 = sampleDb ∧
    Team.findById
      (removeMemberFromTeam (addMemberToTeam sampleDb leaderL 20 "000000000000000000000002").2
        leaderL 20 "000000000000000000000002").2 20
      = some sampleTeam) :=
  ⟨by decide, by decide, by decide, by decide,
    remove_undoes_add sampleDb leaderL 20 "000000000000000000000002" "000000000000000000000002"
      2 sampleTeam (by decide) (by decide) (by decide) (by decide) (by decide) (by decide)
      (by decide)⟩

/-! ## Theorems: sanitization -/

theorem sanitizeItems_eq_map (items : List JsValue) :
    sanitizeItems items = items.map sanitizeValue := by
  induction items with
  | nil => simp [sanitizeItems]
  | cons v rest ih => simp [sanitizeItems, ih]

theorem mem_sanitizeFields (fields : List (String × JsValue)) (key : String) (w : JsValue)
    (h : (key, w) ∈ sanitizeFields fields) :
    isOffendingKey key = false ∧ ∃ v, (key, v) ∈ fields ∧ w = sanitizeValue v := by
  induction fields with
  | nil => simp [sanitizeFields] at h
  | cons kv rest ih =>
    obtain ⟨k, v⟩ := kv
    by_cases hk : isOffendingKey k = true
    · simp only [sanitizeFields, hk, if_true] at h
      obtain ⟨h1, v1, hv1, hw⟩ := ih h
      exact ⟨h1, v1, List.mem_cons_of_mem _ hv1, hw⟩
    · simp only [sanitizeFields, hk] at h
      rcases List.mem_cons.mp h with h1 | h1
      · simp only [Prod.mk.injEq] at h1
        obtain ⟨hkey, hw⟩ := h1
        refine ⟨?_, v, ?_, hw⟩
        · rw [hkey]; simpa using hk
        · rw [hkey]; exact List.mem_cons_self _ _
      · obtain ⟨h2, v1, hv1, hw⟩ := ih h1
        exact ⟨h2, v1, List.mem_cons_of_mem _ hv1, hw⟩

theorem hasKey_sanitized (w : JsValue) (key : String) (h : HasKey w key) :
    ∀ v : JsValue, w = sanitizeValue v → isOffendingKey key = false := by
  induction h with
  | @here fields key val hmem =>
    intro v hv
    cases v with
    | object f0 =>
      simp only [sanitizeValue, JsValue.object.injEq] at hv
      rw [hv] at hmem
      exact (mem_sanitizeFields f0 key val hmem).1
    | array items => simp [sanitizeValue] at hv
    | null => simp [sanitizeValue] at hv
    | bool b => simp [sanitizeValue] at hv
    | number n => simp [sanitizeValue] at hv
    | string s => simp [sanitizeValue] at hv
  | @inField fields key field val hmem _ ih =>
    intro v hv
    cases v with
    | object f0 =>
      simp only [sanitizeValue, JsValue.object.injEq] at hv
      rw [hv] at hmem
      obtain ⟨_, v0, _, hval⟩ := mem_sanitizeFields f0 field val hmem
      exact ih v0 hval
    | array items => simp [sanitizeValue] at hv
    | null => simp [sanitizeValue] at hv
    | bool b => simp [sanitizeValue] at hv
    | number n => simp [sanitizeValue] at hv
    | string s => simp [sanitizeValue] at hv
  | @inItem items key val hmem _ ih =>
    intro v hv
    cases v with
    | array items0 =>
      simp only [sanitizeValue, JsValue.array.injEq] at hv
      rw [hv, sanitizeItems_eq_map] at hmem
      obtain ⟨v0, _, hval⟩ := List.mem_map.mp hmem
      exact ih v0 hval.symm
    | object f0 => simp [sanitizeValue] at hv
    | null => simp [sanitizeValue] at hv
    | bool b => simp [sanitizeValue] at hv
    | number n => simp [sanitizeValue] at hv
    | string s => simp [sanitizeValue] at hv

/-- C14: for every value built from primitives, arrays and objects, no object
anywhere inside `sanitizeValue v`, at any depth and also inside arrays, has a
key that starts with '$' or contains '.'. -/
theorem sanitizeValue_no_offending_key (v : JsValue) (key : String)
    (h : HasKey (sanitizeValue v) key) :
    ¬ (key.data.head? = some '$' ∨ '.' ∈ key.data) := by
  have h1 := hasKey_sanitized (sanitizeValue v) key h v rfl
  intro hcontra
  have h2 : isOffendingKey key = true := by
    unfold isOffendingKey
    rcases hcontra with hc | hc
    · simp [hc]
    · simp [hc]
  rw [h1] at h2
  exact Bool.noConfusion h2

theorem sanitizeValue_no_offending_key_witness :
    sanitizeValue injectionBody
      = .object [("email", .object []),
          ("tags", .array [.object [("name", .string "a")], .number 3])] ∧
    HasKey (sanitizeValue injectionBody) "name" ∧
    ¬ (("name" : String).data.head? = some '$' ∨ '.' ∈ ("name" : String).data) :=
  have hk : HasKey (sanitizeValue injectionBody) "name" :=
    @HasKey.inField _ "name" "tags" (.array [.object [("name", .string "a")], .number 3])
      (by simp [sanitizeValue, sanitizeItems, sanitizeFields, injectionBody, isOffendingKey])
      (@HasKey.inItem _ "name" (.object [("name", .string "a")]) (by simp)
        (@HasKey.here _ "name" (.string "a") (by simp)))
  ⟨rfl, hk, sanitizeValue_no_offending_key injectionBody "name" hk⟩

/-! ## Lemmas: the query of getTasks -/

theorem queryObj_eq_filter (query : Query) :
    getTasks.queryObj query = query.filter (fun kv => !excludedFields.contains kv.1) := by
  simp only [getTasks.queryObj, excludedFields, List.foldl_cons, List.foldl_nil, deleteKey,
    List.filter_filter]
  apply List.filter_congr
  intro kv _
  by_cases h1 : kv.1 = "page" <;> by_cases h2 : kv.1 = "sort" <;>
    by_cases h3 : kv.1 = "limit" <;> by_cases h4 : kv.1 = "fields" <;>
    simp [h1, h2, h3, h4]

theorem splitComma_ne_nil (l : List Char) : splitComma l ≠ [] := by
  cases l with
  | nil => simp [splitComma]
  | cons c cs =>
    unfold splitComma
    split
    · simp
    · split <;> simp

theorem joinSpace_cons_head (c : Char) (h : List Char) (t : List (List Char)) :
    joinSpace ((c :: h) :: t) = c :: joinSpace (h :: t) := by
  cases t with
  | nil => simp [joinSpace]
  | cons y rest => simp [joinSpace]

/-- Splitting at the commas and joining with blanks replaces each comma by a blank. -/
theorem joinSpace_splitComma (l : List Char) :
    joinSpace (splitComma l) = l.map (fun c => if c = ',' then ' ' else c) := by
  induction l with
  | nil => simp [splitComma, joinSpace]
  | cons c cs ih =>
    unfold splitComma
    by_cases hc : c = ','
    · simp only [hc, if_true, List.map_cons]
      cases hs : splitComma cs with
      | nil => exact absurd hs (splitComma_ne_nil cs)
      | cons h t =>
        rw [hs] at ih
        simp [joinSpace, ih]
    · simp only [hc, if_false, List.map_cons]
      cases hs : splitComma cs with
      | nil => exact absurd hs (splitComma_ne_nil cs)
      | cons h t =>
        rw [hs] at ih
        simp only
        rw [joinSpace_cons_head, ih]

theorem orDefault_ne_zero (n : Option Int) (d : Int) (hd : d ≠ 0) : orDefault n d ≠ 0 := by
  unfold orDefault
  cases n with
  | none => exact hd
  | some v =>
    by_cases hv : v = 0
    · simp [hv, hd]
    · simp [hv]

theorem ceil_bounds_pos (a b : Int) (hb : 0 < b) :
    a ≤ -((-a) / b) * b ∧ (-((-a) / b) - 1) * b < a := by
  have h1 := Int.emod_add_ediv (-a) b
  have h2 := Int.emod_nonneg (-a) (ne_of_gt hb)
  have h3 := Int.emod_lt_of_pos (-a) hb
  constructor <;> nlinarith

theorem mathCeilDiv_pos (a b : Int) (hb : 0 < b) :
    mathCeilDiv a b = ⌈(a : ℚ) / (b : ℚ)⌉ := by
  have hbq : (0 : ℚ) < (b : ℚ) := by exact_mod_cast hb
  obtain ⟨h1, h2⟩ := ceil_bounds_pos a b hb
  unfold mathCeilDiv
  rw [if_pos hb]
  symm
  rw [Int.ceil_eq_iff]
  constructor
  · rw [lt_div_iff₀ hbq]
    have : (((-((-a) / b) - 1) * b : Int) : ℚ) < (a : ℚ) := by exact_mod_cast h2
    push_cast at this ⊢
    linarith
  · rw [div_le_iff₀ hbq]
    have : ((a : Int) : ℚ) ≤ ((-((-a) / b) * b : Int) : ℚ) := by exact_mod_cast h1
    push_cast at this ⊢
    linarith

/-- The integer computation of `mathCeilDiv` is the ceiling of the exact quotient. -/
theorem mathCeilDiv_eq_ceil (a b : Int) (hb : b ≠ 0) :
    mathCeilDiv a b = ⌈(a : ℚ) / (b : ℚ)⌉ := by
  rcases lt_or_gt_of_ne hb with hneg | hpos
  · have hnb : 0 < -b := by omega
    have h := mathCeilDiv_pos (-a) (-b) hnb
    have hq : ((-a : Int) : ℚ) / ((-b : Int) : ℚ) = (a : ℚ) / (b : ℚ) := by
      push_cast
      rw [neg_div_neg_eq]
    rw [hq] at h
    rw [← h]
    unfold mathCeilDiv
    have h0 : ¬ (0 < b) := by omega
    rw [if_neg h0, if_pos hnb]
    simp
  · exact mathCeilDiv_pos a b hpos

theorem paginate_length_le (skip limit : Int) (matching : List Task) :
    (paginate skip limit matching).length ≤ limit.toNat ∧
    (paginate skip limit matching).length ≤ matching.length := by
  unfold paginate
  simp only [List.length_take, List.length_drop]
  omega

theorem find_length_le_count (E : QueryEngine) (db : Db) (filter : Query) (sort : String)
    (skip limit : Int) :
    (Task.find E db filter sort skip limit).length ≤ Task.countDocuments E db filter := by
  unfold Task.find Task.countDocuments
  have h1 := (paginate_length_le skip limit (E.order sort (db.tasks.filter (E.isMatch filter)))).2
  have h2 := (E.order_perm sort (db.tasks.filter (E.isMatch filter))).length_eq
  omega

/-- For every query the reported count is the number of tasks returned and is at
most the number of matching tasks; it is at most the page size whenever the
page size is not negative. -/
theorem getTasks_count_bounds (E : QueryEngine) (db : Db) (query : Query) :
    ∃ p : TaskPage, (getTasks E db query).1 = .json 200 (.taskPage p) ∧
      p.count = p.tasks.length ∧ p.count ≤ p.totalTasks ∧
      (0 ≤ getTasks.limit query → (p.count : Int) ≤ getTasks.limit query) := by
  refine ⟨_, rfl, by simp, ?_, ?_⟩
  · exact find_length_le_count E db _ _ _ _
  · intro h0
    have h1 := (paginate_length_le (getTasks.skip query) (getTasks.limit query)
      (E.order (getTasks.sortBy query)
        (db.tasks.filter (E.isMatch (getTasks.queryObj query))))).1
    have h2 : ((getTasks.limit query).toNat : Int) = getTasks.limit query := Int.toNat_of_nonneg h0
    show ((Task.find E db _ _ _ _).length : Int) ≤ _
    unfold Task.find
    omega

/-! ## Theorems: listing tasks -/

/-- C15: the filter `queryObj` that `getTasks` hands to `Task.find` is the query
without the keys page, sort, limit and fields: a pair is in the filter exactly
when it is in the query under another key, in the same order; and the same
filter is handed to `Task.countDocuments`. -/
theorem getTasks_filter (E : QueryEngine) (db : Db) (query : Query) :
    (∀ (k v : String), (k, v) ∈ getTasks.queryObj query ↔
      ((k, v) ∈ query ∧ k ≠ "page" ∧ k ≠ "sort" ∧ k ≠ "limit" ∧ k ≠ "fields")) ∧
    getTasks.queryObj query = query.filter (fun kv => !excludedFields.contains kv.1) ∧
    (getTasks E db query).1.taskPage?.map (fun p => (p.tasks.map (fun t => t.1), p.totalTasks))
      = some (Task.find E db (getTasks.queryObj query) (getTasks.sortBy query)
          (getTasks.skip query) (getTasks.limit query),
        Task.countDocuments E db (getTasks.queryObj query)) := by
  refine ⟨?_, queryObj_eq_filter query, ?_⟩
  · intro k v
    rw [queryObj_eq_filter]
    simp [List.mem_filter, excludedFields]
  · simp [getTasks, Reply.taskPage?, List.map_map, Function.comp_def]

/-- C16: for every query the page size `limit` is never 0, and `getTasks`
answers 200 with `totalPages` equal to the ceiling of the exact quotient of the
number of matching tasks by `limit`; for a positive `limit` this is the least
number of pages of that size that hold all matching tasks. -/
theorem getTasks_totalPages (E : QueryEngine) (db : Db) (query : Query) :
    getTasks.limit query ≠ 0 ∧
    ∃ p : TaskPage, (getTasks E db query).1 = .json 200 (.taskPage p) ∧
      p.totalTasks = Task.countDocuments E db (getTasks.queryObj query) ∧
      p.totalPages = ⌈((p.totalTasks : Int) : ℚ) / ((getTasks.limit query : Int) : ℚ)⌉ ∧
      (0 < getTasks.limit query →
        (p.totalTasks : Int) ≤ p.totalPages * getTasks.limit query ∧
        (p.totalPages - 1) * getTasks.limit query < (p.totalTasks : Int)) := by
  have hl : getTasks.limit query ≠ 0 := orDefault_ne_zero _ 10 (by decide)
  refine ⟨hl, _, rfl, rfl, ?_, ?_⟩
  · exact mathCeilDiv_eq_ceil _ _ hl
  · intro hpos
    have hb := ceil_bounds_pos
      (Task.countDocuments E db (getTasks.queryObj query) : Int) (getTasks.limit query) hpos
    simp only [mathCeilDiv, hpos, if_true]
    exact hb

theorem getTasks_totalPages_witness :
    (getTasks sampleEngine sampleDb scenarioQuery).1.taskPage?.map
      (fun p => (p.totalTasks, p.totalPages)) = some (1, 1) ∧
    getTasks.limit scenarioQuery = 5 ∧
    (getTasks.limit scenarioQuery ≠ 0 ∧
    ∃ p : TaskPage, (getTasks sampleEngine sampleDb scenarioQuery).1 = .json 200 (.taskPage p) ∧
      p.totalTasks = Task.countDocuments sampleEngine sampleDb (getTasks.queryObj scenarioQuery) ∧
      p.totalPages
        = ⌈((p.totalTasks : Int) : ℚ) / ((getTasks.limit scenarioQuery : Int) : ℚ)⌉ ∧
      (0 < getTasks.limit scenarioQuery →
        (p.totalTasks : Int) ≤ p.totalPages * getTasks.limit scenarioQuery ∧
        (p.totalPages - 1) * getTasks.limit scenarioQuery < (p.totalTasks : Int))) :=
  ⟨by decide, by decide, getTasks_totalPages sampleEngine sampleDb scenarioQuery⟩

/-- C17 (the code departs from the claim): with the query `limit=-5` the page
size used is -5, and whatever the store holds `getTasks` answers 200 with a
count, the number of tasks returned, that exceeds that page size. -/
theorem getTasks_count_exceeds_negative_limit (E : QueryEngine) (db : Db) :
    getTasks.limit [("limit", "-5")] = -5 ∧
    ∃ p : TaskPage, (getTasks E db [("limit", "-5")]).1 = .json 200 (.taskPage p) ∧
      p.count = p.tasks.length ∧
      ¬ ((p.count : Int) ≤ getTasks.limit [("limit", "-5")]) := by
  have hl : getTasks.limit [("limit", "-5")] = -5 := by decide
  refine ⟨hl, _, rfl, by simp, ?_⟩
  rw [hl]
  omega

/-- C18 (the code departs from the claim): with the query `page=-2` the page
used is -2, it is the page reported whatever the store holds, and the skip is
-30; with `limit=-5` the page size used is -5. -/
theorem getTasks_negative_page_and_limit :
    getTasks.page [("page", "-2")] = -2 ∧
    ¬ (1 ≤ getTasks.page [("page", "-2")]) ∧
    getTasks.skip [("page", "-2")] = -30 ∧
    getTasks.skip [("page", "-2")] < 0 ∧
    (∀ (E : QueryEngine) (db : Db),
      (getTasks E db [("page", "-2")]).1.taskPage?.map (fun p => p.page) = some (-2)) ∧
    getTasks.limit [("limit", "-5")] = -5 ∧
    ¬ (1 ≤ getTasks.limit [("limit", "-5")]) :=
  ⟨by decide, by decide, by decide, by decide,
    fun _ _ => by simp only [getTasks, Reply.taskPage?, Option.map_some']; decide,
    by decide, by decide⟩

/-- C19 (counterexample): with the query `sort=` the sort key is present and the
given list is empty, yet the sort used is '-createdAt' and not the given list
with its commas replaced. -/
theorem getTasks_sort_empty_string :
    List.lookup "sort" ([("sort", "")] : Query) = some "" ∧
    getTasks.sortBy [("sort", "")] = "-createdAt" ∧
    getTasks.sortBy [("sort", "")]
      ≠ String.mk (("" : String).data.map (fun c => if c = ',' then ' ' else c)) := by
  decide

/-- C19 (amended): when the sort key is absent or empty the sort used is
'-createdAt'; when page (limit) is absent or does not parse as a number the
page is 1 (the limit is 10), and when both hold the skip is 0; when sort is
present and not empty the sort used is the given string with each comma
replaced by a blank and nothing else changed. -/
theorem getTasks_defaults (query : Query) :
    (query.lookup "sort" = none ∨ query.lookup "sort" = some "" →
      getTasks.sortBy query = "-createdAt") ∧
    (query.lookup "page" = none ∨ parseInt (query.lookup "page") = none →
      getTasks.page query = 1) ∧
    (query.lookup "limit" = none ∨ parseInt (query.lookup "limit") = none →
      getTasks.limit query = 10) ∧
    (parseInt (query.lookup "page") = none → parseInt (query.lookup "limit") = none →
      getTasks.skip query = 0) ∧
    (∀ sort : String, query.lookup "sort" = some sort → sort ≠ "" →
      getTasks.sortBy query
        = String.mk (sort.data.map (fun c => if c = ',' then ' ' else c))) := by
  refine ⟨?_, ?_, ?_, ?_, ?_⟩
  · rintro (h | h) <;> simp [getTasks.sortBy, h]
  · rintro (h | h)
    · simp [getTasks.page, h, parseInt, orDefault]
    · simp [getTasks.page, h, orDefault]
  · rintro (h | h)
    · simp [getTasks.limit, h, parseInt, orDefault]
    · simp [getTasks.limit, h, orDefault]
  · intro hp hl
    simp [getTasks.skip, getTasks.page, hp, orDefault]
  · intro sort hs hne
    simp [getTasks.sortBy, hs, hne, joinSpace_splitComma]

theorem getTasks_defaults_witness :
    getTasks.sortBy scenarioQuery = "priority -createdAt" ∧
    getTasks.sortBy [("status", "terminée")] = "-createdAt" ∧
    getTasks.page [("page", "abc")] = 1 ∧
    getTasks.skip [("status", "terminée")] = 0 ∧
    (∀ sort : String, List.lookup "sort" scenarioQuery = some sort → sort ≠ "" →
      getTasks.sortBy scenarioQuery
        = String.mk (sort.data.map (fun c => if c = ',' then ' ' else c))) :=
  ⟨by decide, by decide, by decide, by decide, (getTasks_defaults scenarioQuery).2.2.2.2⟩

/-! ## Theorems: uniqueness violations -/

/-- C20 (the code departs from the claim): a POST /api/teams whose non-empty
name is, once trimmed, the name of a stored team is answered with status 500,
and nothing is stored. -/
theorem createTeam_duplicate_name_500 (db : Db) (user : User) (body : TeamBody) (name : String)
    (hname : body.name = some name) (hne : name ≠ "")
    (hdup : ∃ t ∈ db.teams, t.name = jsTrim name) :
    (createTeam db user body).1.status = 500 ∧ (createTeam db user body).2 = db := by
  obtain ⟨t, ht, hteq⟩ := hdup
  have hany : (db.teams.any fun x => x.name == jsTrim name) = true :=
    List.any_eq_true.mpr ⟨t, ht, by simp [hteq]⟩
  unfold createTeam
  simp only [hname, beq_iff_eq, hne, if_false]
  unfold Team.create
  simp only
  split
  · simp [Reply.status, errorStatus]
  · rename_i hc
    split at hc
    · simp at hc
    · split at hc
      · simp at hc
      · rename_i hfree
        exact absurd hany (by simpa [Team.preSave] using hfree)

theorem createTeam_duplicate_name_500_witness :
    duplicateNameBody.name = some "Test Team" ∧
    (∃ t ∈ sampleDb.teams, t.name = jsTrim "Test Team") ∧
    (createTeam sampleDb memberM duplicateNameBody).1.status = 500 ∧
    (createTeam sampleDb memberM duplicateNameBody).2 = sampleDb :=
  ⟨by decide, ⟨sampleTeam, by decide, by decide⟩,
    createTeam_duplicate_name_500 sampleDb memberM duplicateNameBody "Test Team" (by decide)
      (by decide) ⟨sampleTeam, by decide, by decide⟩⟩

/-! ## Theorems: the error middleware -/

/-- C21 (counterexample): with NODE_ENV 'test', and with NODE_ENV unset, the
JSON written by `errorHandler` carries the stack of the error, not null. -/
theorem errorHandler_stack_outside_production :
    (errorHandler (some "test") "Tâche non trouvée" "Error: Tâche non trouvée at canEditTask"
      404).2.stack = some "Error: Tâche non trouvée at canEditTask" ∧
    (errorHandler none "Tâche non trouvée" "Error: Tâche non trouvée at canEditTask"
      404).2.stack = some "Error: Tâche non trouvée at canEditTask" ∧
    (errorHandler (some "test") "Tâche non trouvée" "Error: Tâche non trouvée at canEditTask"
      404).2.stack ≠ none := by
  decide

/-- C21 (amended): for every error and every value of NODE_ENV, the stack field
of the error response is null exactly when NODE_ENV is 'production', and is the
stack of the error for every other value (development, test, unset); the message
is the message of the error; the status is 500 when the status set so far is 200
and is the status set so far otherwise. -/
theorem errorHandler_response (nodeEnv : Option String) (message stack : String)
    (resStatusCode : Nat) :
    ((errorHandler nodeEnv message stack resStatusCode).2.stack = none
      ↔ nodeEnv = some "production") ∧
    (nodeEnv ≠ some "production" →
      (errorHandler nodeEnv message stack resStatusCode).2.stack = some stack) ∧
    (errorHandler nodeEnv message stack resStatusCode).2.message = message ∧
    (resStatusCode = 200 → (errorHandler nodeEnv message stack resStatusCode).1 = 500) ∧
    (resStatusCode ≠ 200 →
      (errorHandler nodeEnv message stack resStatusCode).1 = resStatusCode) := by
  unfold errorHandler errorStatus
  by_cases hp : nodeEnv = some "production"
  · by_cases hs : resStatusCode = 200 <;> simp [hp, hs]
  · by_cases hs : resStatusCode = 200 <;> simp [hp, hs]

theorem errorHandler_response_witness :
    (errorHandler (some "production") "Tâche non trouvée" "Error: at canEditTask" 404).2.stack
      = none ∧
    (errorHandler (some "development") "erreur" "Error: at createTeam" 200).1 = 500 ∧
    (((errorHandler (some "development") "erreur" "Error: at createTeam" 200).2.stack = none
      ↔ some "development" = some "production") ∧
    (some "development" ≠ some "production" →
      (errorHandler (some "development") "erreur" "Error: at createTeam" 200).2.stack
        = some "Error: at createTeam") ∧
    (errorHandler (some "development") "erreur" "Error: at createTeam" 200).2.message
      = "erreur" ∧
    ((200 : Nat) = 200 →
      (errorHandler (some "development") "erreur" "Error: at createTeam" 200).1 = 500) ∧
    ((200 : Nat) ≠ 200 →
      (errorHandler (some "development") "erreur" "Error: at createTeam" 200).1 = 200)) :=
  ⟨by decide, by decide,
    errorHandler_response (some "development") "erreur" "Error: at createTeam" 200⟩

/-! ## Lemmas: members without repetition -/

theorem preSave_nodup (b : Bool) (t : Team) (h : t.members.Nodup) :
    (t.preSave b).members.Nodup := by
  unfold Team.preSave
  split
  · rename_i hc
    have hnot : t.leader ∉ t.members := by
      simp only [Bool.and_eq_true, Bool.not_eq_true', List.contains_eq_any_beq,
        List.any_eq_false, beq_iff_eq] at hc
      intro hmem
      exact hc.2 t.leader hmem rfl
    exact List.Nodup.append h (List.nodup_singleton _) (by simpa using hnot)
  · exact h

theorem preSave_of_mem (b : Bool) (t : Team) (h : t.leader ∈ t.members) : t.preSave b = t := by
  unfold Team.preSave
  simp [h]

theorem save_keeps_nodup (db : Db) (team : Team) (h : MembersNodup db)
    (ht : team.members.Nodup) : MembersNodup (Team.save db team).2 := by
  intro t hmem
  simp only [Team.save] at hmem
  rcases mem_updateFirst _ _ _ _ hmem with h1 | ⟨_, _, h1⟩
  · exact h t h1
  · rw [h1]; exact preSave_nodup true team ht

theorem createTeam_keeps_nodup (db : Db) (user : User) (body : TeamBody)
    (h : MembersNodup db) : MembersNodup (createTeam db user body).2 := by
  unfold createTeam
  split
  · exact h
  · split
    · exact h
    · split
      · exact h
      · rename_i hc
        unfold Team.create at hc
        simp only at hc
        split at hc
        · exact absurd hc (by simp)
        · split at hc
          · exact absurd hc (by simp)
          · simp only [Option.some.injEq, Prod.mk.injEq] at hc
            obtain ⟨_, hdb⟩ := hc
            intro t ht
            rw [← hdb] at ht
            rcases List.mem_append.mp ht with h1 | h1
            · exact h t h1
            · simp only [List.mem_singleton] at h1
              rw [h1]
              exact preSave_nodup true _ (List.nodup_singleton _)

/-- `addMemberToTeam` keeps the members without repetition when the request
string is spelled as `toString()` spells the identifier it casts to. -/
theorem addMemberToTeam_keeps_nodup (db : Db) (user : User) (id : ObjectId) (userId : String)
    (hsp : ∀ u, castObjectId userId = some u → ObjectId.toString u = userId)
    (h : MembersNodup db) : MembersNodup (addMemberToTeam db user id userId).2 := by
  unfold addMemberToTeam
  split
  · exact h
  · rename_i team hfind
    have hteam : team.members.Nodup := h team (List.mem_of_find?_eq_some hfind)
    split
    · exact h
    · split
      · exact h
      · rename_i uid hcast
        split
        · exact h
        · split
          · exact h
          · rename_i hinc
            have hnot : uid ∉ team.members := by
              intro hmem
              apply hinc
              unfold membersIncludes
              exact List.any_eq_true.mpr ⟨uid, hmem, by simp [hsp uid hcast]⟩
            have hnew : (team.members ++ [uid]).Nodup :=
              List.Nodup.append hteam (List.nodup_singleton _) (by simpa using hnot)
            simp only
            split <;> exact save_keeps_nodup db _ h hnew

theorem removeMemberFromTeam_keeps_nodup (db : Db) (user : User) (teamId : ObjectId)
    (memberId : String) (h : MembersNodup db) :
    MembersNodup (removeMemberFromTeam db user teamId memberId).2 := by
  unfold removeMemberFromTeam
  split
  · exact h
  · rename_i team hfind
    have hteam : team.members.Nodup := h team (List.mem_of_find?_eq_some hfind)
    split
    · exact h
    · split
      · exact h
      · split
        · exact h
        · simp only
          split <;> exact save_keeps_nodup db _ h (hteam.filter _)

/-! ## Theorems: members as a set -/

/-- C22 (the code departs from the claim): a sequence of three requests by one
user, all answered with success (201, 200, 200), after which a team lists a
member twice: the user creates a team, adds a member, and adds the same member
again with the id written in upper case.  The store before the requests has no
team. -/
theorem members_repeated_after_ops :
    (∀ t ∈ usersH.teams, t.members.Nodup) ∧
    teamOpsStatuses usersH upperCaseAddOps = [201, 200, 200] ∧
    (runTeamOps usersH upperCaseAddOps).teams.map (fun t => t.members)
      = [[0x507f1f77bcf86cd799439011, 0x507f191e810c19729de860ea,
          0x507f191e810c19729de860ea]] ∧
    ¬ (∀ t ∈ (runTeamOps usersH upperCaseAddOps).teams, t.members.Nodup) := by
  decide

/-! ## Lemmas: what sanitizeValue keeps -/

theorem sanitizeFields_eq_filter_map (fields : List (String × JsValue)) :
    sanitizeFields fields
      = (fields.filter (fun kv => !isOffendingKey kv.1)).map
          (fun kv => (kv.1, sanitizeValue kv.2)) := by
  induction fields with
  | nil => simp [sanitizeFields]
  | cons kv rest ih =>
    obtain ⟨k, v⟩ := kv
    by_cases hk : isOffendingKey k = true
    · simp [sanitizeFields, hk, ih]
    · simp [sanitizeFields, hk, ih]

theorem isOffendingKey_false_iff (key : String) :
    isOffendingKey key = false ↔ ¬ (key.data.head? = some '$' ∨ '.' ∈ key.data) := by
  unfold isOffendingKey
  simp [not_or]

mutual
theorem sanitizeValue_of_clean :
    ∀ v : JsValue, (∀ key, HasKey v key → isOffendingKey key = false) → sanitizeValue v = v
  | .null, _ => by simp [sanitizeValue]
  | .bool _, _ => by simp [sanitizeValue]
  | .number _, _ => by simp [sanitizeValue]
  | .string _, _ => by simp [sanitizeValue]
  | .array items, h => by
    have hi := sanitizeItems_of_clean items (fun x hx key hk => h key (HasKey.inItem hx hk))
    simp [sanitizeValue, hi]
  | .object fields, h => by
    have hf := sanitizeFields_of_clean fields
      (fun k x hx => ⟨h k (HasKey.here hx), fun key hk => h key (HasKey.inField hx hk)⟩)
    simp [sanitizeValue, hf]
theorem sanitizeItems_of_clean :
    ∀ items : List JsValue,
      (∀ x ∈ items, ∀ key, HasKey x key → isOffendingKey key = false) →
      sanitizeItems items = items
  | [], _ => by simp [sanitizeItems]
  | v :: rest, h => by
    have hv := sanitizeValue_of_clean v (h v (List.mem_cons_self _ _))
    have hr := sanitizeItems_of_clean rest (fun x hx => h x (List.mem_cons_of_mem _ hx))
    simp [sanitizeItems, hv, hr]
theorem sanitizeFields_of_clean :
    ∀ fields : List (String × JsValue),
      (∀ k x, (k, x) ∈ fields →
        isOffendingKey k = false ∧ ∀ key, HasKey x key → isOffendingKey key = false) →
      sanitizeFields fields = fields
  | [], _ => by simp [sanitizeFields]
  | (k, v) :: rest, h => by
    have hk := (h k v (List.mem_cons_self _ _)).1
    have hv := sanitizeValue_of_clean v (h k v (List.mem_cons_self _ _)).2
    have hr := sanitizeFields_of_clean rest
      (fun k1 x hx => h k1 x (List.mem_cons_of_mem _ hx))
    simp [sanitizeFields, hk, hv, hr]
end

theorem sanitizeValue_idem (v : JsValue) :
    sanitizeValue (sanitizeValue v) = sanitizeValue v :=
  sanitizeValue_of_clean (sanitizeValue v)
    (fun key hk => hasKey_sanitized (sanitizeValue v) key hk v rfl)

theorem hasKey_of_hasKeptKey (v : JsValue) (key : String) (h : HasKeptKey v key) :
    HasKey (sanitizeValue v) key := by
  induction h with
  | @here fields key val hmem hk =>
    have hm : (key, sanitizeValue val) ∈ sanitizeFields fields := by
      rw [sanitizeFields_eq_filter_map]
      exact List.mem_map.mpr ⟨(key, val), List.mem_filter.mpr ⟨hmem, by simp [hk]⟩, rfl⟩
    simp only [sanitizeValue]
    exact HasKey.here hm
  | @inField fields key field val hmem hk _ ih =>
    have hm : (field, sanitizeValue val) ∈ sanitizeFields fields := by
      rw [sanitizeFields_eq_filter_map]
      exact List.mem_map.mpr ⟨(field, val), List.mem_filter.mpr ⟨hmem, by simp [hk]⟩, rfl⟩
    simp only [sanitizeValue]
    exact HasKey.inField hm ih
  | @inItem items key val hmem _ ih =>
    have hm : sanitizeValue val ∈ sanitizeItems items := by
      rw [sanitizeItems_eq_map]
      exact List.mem_map.mpr ⟨val, hmem, rfl⟩
    simp only [sanitizeValue]
    exact HasKey.inItem hm ih

/-! ## Theorems: sanitizeValue removes offending keys only -/

/-- C23: `sanitizeValue` removes offending keys, with their values, and nothing
else.  In every object the keys that neither start with '$' nor contain '.' are
kept, in their order, each with its sanitized value; a primitive is unchanged;
an array keeps its length and order, each element being sanitized; a key that
is not inside the value of an offending key is still a key of the result; a
value with no offending key at any depth is left exactly as it was; and
sanitizing twice gives the same result as sanitizing once. -/
theorem sanitizeValue_keeps_the_rest (v : JsValue) :
    (∀ fields : List (String × JsValue),
      sanitizeValue (.object fields)
        = .object ((fields.filter (fun kv => !isOffendingKey kv.1)).map
            (fun kv => (kv.1, sanitizeValue kv.2)))) ∧
    (∀ items : List JsValue,
      sanitizeValue (.array items) = .array (items.map sanitizeValue) ∧
      (items.map sanitizeValue).length = items.length) ∧
    (sanitizeValue .null = .null ∧ (∀ b, sanitizeValue (.bool b) = .bool b) ∧
      (∀ n, sanitizeValue (.number n) = .number n) ∧
      (∀ s, sanitizeValue (.string s) = .string s)) ∧
    (∀ key, HasKeptKey v key → HasKey (sanitizeValue v) key) ∧
    ((∀ key, HasKey v key → ¬ (key.data.head? = some '$' ∨ '.' ∈ key.data)) →
      sanitizeValue v = v) ∧
    sanitizeValue (sanitizeValue v) = sanitizeValue v := by
  refine ⟨?_, ?_, ?_, ?_, ?_, sanitizeValue_idem v⟩
  · intro fields
    simp only [sanitizeValue, sanitizeFields_eq_filter_map]
  · intro items
    simp [sanitizeValue, sanitizeItems_eq_map]
  · simp [sanitizeValue]
  · intro key hk
    exact hasKey_of_hasKeptKey v key hk
  · intro h
    exact sanitizeValue_of_clean v
      (fun key hk => (isOffendingKey_false_iff key).mpr (h key hk))

theorem sanitizeValue_keeps_the_rest_witness :
    sanitizeValue cleanBody = cleanBody ∧
    sanitizeValue injectionBody
      = .object [("email", .object []),
          ("tags", .array [.object [("name", .string "a")], .number 3])] ∧
    HasKey (sanitizeValue injectionBody) "email" ∧
    sanitizeValue (sanitizeValue injectionBody) = sanitizeValue injectionBody ∧
    (∀ key, HasKey (.object [("name", .string "a")]) key →
      ¬ (key.data.head? = some '$' ∨ '.' ∈ key.data)) ∧
    sanitizeValue (.object [("name", .string "a")]) = .object [("name", .string "a")] :=
  have h := sanitizeValue_keeps_the_rest injectionBody
  have hclean : ∀ key, HasKey (.object [("name", .string "a")]) key →
      ¬ (key.data.head? = some '$' ∨ '.' ∈ key.data) := by
    intro key hk
    cases hk with
    | here hmem =>
      simp only [List.mem_singleton, Prod.mk.injEq] at hmem
      rw [hmem.1]
      decide
    | inField hmem hsub =>
      simp only [List.mem_singleton, Prod.mk.injEq] at hmem
      rw [hmem.2] at hsub
      cases hsub
  ⟨rfl, rfl,
    h.2.2.2.1 "email" (@HasKeptKey.here _ "email" (.object [("$gt", .string "")])
      (by simp [injectionBody]) (by decide)),
    h.2.2.2.2.2, hclean,
    (sanitizeValue_keeps_the_rest (.object [("name", .string "a")])).2.2.2.2.1 hclean⟩

end GestionKeita
